import Mathlib

/-!
# Verification of the RAG system's caching and hybrid-ranking layer

This file gives a shallow embedding of the algorithmic core of the
repository — `rrf_fusion.py` (Reciprocal Rank Fusion), `caching_layer.py`
(the three-level Redis cache: serialization, compression, adaptive TTL,
key derivation, hit/miss statistics) and `bm25_indexer.py` (keyword
search) — and proves or refutes the specification's claims about it.

Modelling conventions:
* Python `float` arithmetic on scores, weights and TTL factors is modelled
  exactly over `ℚ`; no claim under verification depends on IEEE rounding.
* Python dictionaries are insertion-ordered association lists; mutation of
  dictionaries shared by reference is modelled with an explicit store
  (address-indexed list of dictionaries).
* External libraries (`redis`, `msgpack`, `lz4`, `json`, `hashlib`,
  `rank_bm25`) are modelled from their documented contracts where the
  repository only calls into them; each such definition carries a comment
  saying so.  The logic translated from the repository's own code follows
  the source line by line.
-/

set_option maxRecDepth 100000

unseal Rat.add Rat.mul Rat.inv Rat.sub

namespace RAGSystem

/-! ## Python dictionary model (used by `rrf_fusion.py`)

Dictionary values occurring in `rrf_fusion.py` are strings, numbers
(similarity / bm25 / rrf scores and ranks, modelled over `ℚ`) and lists
of strings (the `appeared_in` field). -/

/-- Value type for the dictionaries handled by the fusion engine. -/
inductive DVal where
  | str (s : String)
  | num (q : ℚ)
  | strs (l : List String)
deriving DecidableEq

/-- A Python dict as an insertion-ordered association list. -/
abbrev Dict := List (String × DVal)

/-- Model of `d[key]` / `d.get(key)`: first binding of `key`, if any. -/
def dget (d : Dict) (key : String) : Option DVal :=
  (d.find? (fun p => p.1 == key)).map (fun p => p.2)

/-- Model of `d[key] = v`: overwrite in place if the key is present
(CPython keeps the insertion position), append otherwise. -/
def dset (d : Dict) (key : String) (v : DVal) : Dict :=
  if (d.find? (fun p => p.1 == key)).isSome then
    d.map (fun p => if p.1 == key then (key, v) else p)
  else
    d ++ [(key, v)]

/-! ## Reciprocal Rank Fusion (`rrf_fusion.py`, `ReciprocalRankFusion.fuse`)

The input result lists hold dictionaries by reference; `result.copy()`
allocates a fresh dictionary.  We model the reference structure with an
explicit store: a `Store` is a list of dictionaries, an address is an
index into it, and the two input lists are lists of addresses.  Appending
to the store models allocation (`result.copy()`), `storeSet` models
in-place mutation (`doc[key] = v`). -/

/-- The heap of dictionaries. -/
abbrev Store := List Dict

/-- Dereference an address.  All addresses arising in any claim are in
range; an out-of-range address dereferences to the empty dict. -/
def storeGet (store : Store) (a : Nat) : Dict :=
  store.getD a []

/-- In-place mutation `store[a][key] = v`. -/
def storeSet (store : Store) (a : Nat) (key : String) (v : DVal) : Store :=
  store.set a (dset (storeGet store a) key v)

/-- Content identity used by `fuse`: the source computes
`hash(result["content"])` and the spec (§3, §9) documents content-hash
keying with collisions as an accepted approximation, so the model keys by
the content string itself.  A missing or non-string `"content"` (which
would raise `KeyError` in Python — a path no claim exercises) maps to
`""`. -/
def contentKey (d : Dict) : String :=
  match dget d "content" with
  | some (.str s) => s
  | _ => ""

/-- The `scores` dict of `fuse`: content key → accumulated RRF score. -/
abbrev Scores := List (String × ℚ)

/-- Lookup in the scores dict (Python dict access: first binding of the
key, and the dicts the program builds bind each key once). -/
def slookup : Scores → String → Option ℚ
  | [], _ => none
  | p :: r, c => if p.1 == c then some p.2 else slookup r c

/-- Model of `scores[content_key] = scores.get(content_key, 0) + rrf_score`. -/
def bump (scores : Scores) (c : String) (v : ℚ) : Scores :=
  if (scores.find? (fun p => p.1 == c)).isSome then
    scores.map (fun p => if p.1 == c then (p.1, p.2 + v) else p)
  else
    scores ++ [(c, v)]

/-- The `doc_data` dict of `fuse`: content key → address of the merged
record (a copy of the first input dict seen with that content). -/
abbrev DocData := List (String × Nat)

/-- Lookup in `doc_data`. -/
def ddFind (dd : DocData) (c : String) : Option Nat :=
  (dd.find? (fun p => p.1 == c)).map (fun p => p.2)

/-- Weight normalization at the top of `fuse` (lines 51-58): divide both
weights by their sum when it is positive, otherwise default to 0.5/0.5. -/
def normWeights (semanticWeight keywordWeight : ℚ) : ℚ × ℚ :=
  let total := semanticWeight + keywordWeight
  if 0 < total then (semanticWeight / total, keywordWeight / total)
  else (1/2, 1/2)

/-- Model of `result.get("similarity_score", result.get("distance", 0))`. -/
def semScoreVal (d : Dict) : DVal :=
  match dget d "similarity_score" with
  | some v => v
  | none => (dget d "distance").getD (.num 0)

/-- Model of `result.get("bm25_score", 0)`. -/
def bmScoreVal (d : Dict) : DVal :=
  (dget d "bm25_score").getD (.num 0)

/-- First loop of `fuse` (lines 65-74): walk the semantic results with
rank starting at 1; accumulate `w * (1 / (k + rank))` into `scores`; on
first sight of a content key, append a copy of the input dict extended
with `semantic_rank` and `semantic_score` and record its address in
`doc_data`. -/
def semPass (k : Nat) (w : ℚ) :
    List Nat → Nat → Store → Scores → DocData → Store × Scores × DocData
  | [], _, store, scores, dd => (store, scores, dd)
  | a :: rest, rank, store, scores, dd =>
    let d := storeGet store a
    let ckey := contentKey d
    let scores' := bump scores ckey (w * (1 / ((k : ℚ) + rank)))
    match ddFind dd ckey with
    | some _ => semPass k w rest (rank + 1) store scores' dd
    | none =>
        let copy := dset (dset d "semantic_rank" (.num (rank : ℚ)))
          "semantic_score" (semScoreVal d)
        semPass k w rest (rank + 1) (store ++ [copy]) scores'
          (dd ++ [(ckey, store.length)])

/-- Second loop of `fuse` (lines 77-90): same accumulation for the
keyword results; if the content key is already in `doc_data` the merged
record is mutated in place with `keyword_rank` and `bm25_score`,
otherwise a copy extended with those fields is appended. -/
def keyPass (k : Nat) (w : ℚ) :
    List Nat → Nat → Store → Scores → DocData → Store × Scores × DocData
  | [], _, store, scores, dd => (store, scores, dd)
  | a :: rest, rank, store, scores, dd =>
    let d := storeGet store a
    let ckey := contentKey d
    let scores' := bump scores ckey (w * (1 / ((k : ℚ) + rank)))
    match ddFind dd ckey with
    | some addr =>
        let store' := storeSet (storeSet store addr "keyword_rank" (.num (rank : ℚ)))
          addr "bm25_score" (bmScoreVal d)
        keyPass k w rest (rank + 1) store' scores' dd
    | none =>
        let copy := dset (dset d "keyword_rank" (.num (rank : ℚ)))
          "bm25_score" (bmScoreVal d)
        keyPass k w rest (rank + 1) (store ++ [copy]) scores'
          (dd ++ [(ckey, store.length)])

/-- Model of `round(score, 6)` (line 96).  Python rounds the float to six
decimal places; over `ℚ` we round `q·10⁶` to the nearest integer.  No
claim depends on the rounded value — ranking uses the unrounded scores. -/
def round6 (q : ℚ) : ℚ :=
  (round (q * 1000000) : ℚ) / 1000000

/-- Stable insertion of an entry into a list sorted descending by `key`:
the new entry goes before the first entry whose key is not larger. -/
def insertDescBy {α : Type} (key : α → ℚ) (p : α) : List α → List α
  | [] => [p]
  | q :: rest => if key p < key q then q :: insertDescBy key p rest else p :: q :: rest

/-- Model of Python's `sorted(xs, key=..., reverse=True)`: a stable
descending sort.  Python's `sorted` is stable, so any stable descending
sort computes the same list. -/
def sortDescBy {α : Type} (key : α → ℚ) : List α → List α
  | [] => []
  | p :: rest => insertDescBy key p (sortDescBy key rest)

/-- Model of `sorted(scores.items(), key=lambda x: x[1], reverse=True)`
(line 94). -/
def sortDesc (scores : List (String × ℚ)) : List (String × ℚ) :=
  sortDescBy (fun p => p.2) scores

/-- Third loop of `fuse` (lines 93-104): for each content key in score
order, mutate its merged record with `rrf_score` and `appeared_in` and
emit its address.  Every scored key was recorded in `doc_data` by the
first two loops, so the `none` branch is unreachable; it skips the entry
(Python would raise `KeyError` there). -/
def finalize (store : Store) (dd : DocData) :
    List (String × ℚ) → Store × List Nat
  | [] => (store, [])
  | (ckey, score) :: rest =>
    match ddFind dd ckey with
    | some addr =>
        let d := storeGet store addr
        let d1 := dset d "rrf_score" (.num (round6 score))
        let appeared :=
          (if (dget d1 "semantic_rank").isSome then ["semantic"] else []) ++
          (if (dget d1 "keyword_rank").isSome then ["keyword"] else [])
        let d2 := dset d1 "appeared_in" (.strs appeared)
        let r := finalize (store.set addr d2) dd rest
        (r.1, addr :: r.2)
    | none => finalize store dd rest

/-- Model of `ReciprocalRankFusion.fuse` (lines 32-106): returns the
final store together with the addresses of the fused, ranked records. -/
def fuse (store : Store) (semanticResults keywordResults : List Nat)
    (k : Nat) (semanticWeight keywordWeight : ℚ) : Store × List Nat :=
  let w := normWeights semanticWeight keywordWeight
  let s1 := semPass k w.1 semanticResults 1 store [] []
  let s2 := keyPass k w.2 keywordResults 1 s1.1 s1.2.1 s1.2.2
  finalize s2.1 s2.2.2 (sortDesc s2.2.1)

/-- The accumulated `scores` dict of `fuse` after both loops — the values
that `fuse` sorts by. -/
def fuseScores (store : Store) (semanticResults keywordResults : List Nat)
    (k : Nat) (semanticWeight keywordWeight : ℚ) : Scores :=
  let w := normWeights semanticWeight keywordWeight
  let s1 := semPass k w.1 semanticResults 1 store [] []
  (keyPass k w.2 keywordResults 1 s1.1 s1.2.1 s1.2.2).2.1

/-! ## Serialization codec (`caching_layer.py`, `_serialize` / `_deserialize`)

`_serialize` passes values to `msgpack.packb` after wrapping numpy arrays
in a tagged dict; `_deserialize` calls `msgpack.unpackb` and unwraps the
tag.  `MPVal` is the type of msgpack-level values (maps / sequences of
strings, numbers, booleans; floats modelled exactly over `ℚ`).  The
msgpack byte format itself is external; it is modelled by the token
encoder `mpEncode` / decoder `mpDecodeFull` below, a faithful codec
(headers, length fields, full-consumption check mirroring `unpackb`
raising on extra data). -/

/-- A msgpack-serializable value. -/
inductive MPVal where
  | vnil
  | vbool (b : Bool)
  | vint (n : Int)
  | vrat (q : ℚ)
  | vstr (s : String)
  | vlist (l : List MPVal)
  | vmap (m : List (String × MPVal))

/-- Token encoding of an integer: sign tag then magnitude. -/
def intEnc : Int → List Nat
  | .ofNat m => [0, m]
  | .negSucc m => [1, m]

/-- Decoder for `intEnc`. -/
def intDec : List Nat → Option (Int × List Nat)
  | 0 :: m :: r => some (.ofNat m, r)
  | 1 :: m :: r => some (.negSucc m, r)
  | _ => none

/-- Token encoding of a string: length then the character codes. -/
def strEnc (s : String) : List Nat :=
  s.data.length :: s.data.map Char.toNat

/-- Read `n` character codes. -/
def strDecAux : Nat → List Nat → Option (List Char × List Nat)
  | 0, r => some ([], r)
  | n + 1, c :: r => (strDecAux n r).map (fun p => (Char.ofNat c :: p.1, p.2))
  | _ + 1, [] => none

/-- Decoder for `strEnc`. -/
def strDec : List Nat → Option (String × List Nat)
  | n :: r => (strDecAux n r).map (fun p => (String.mk p.1, p.2))
  | [] => none

mutual

/-- Model of the msgpack byte encoding: each value is a tag token
followed by its payload; lists and maps carry their length. -/
def mpEncode : MPVal → List Nat
  | .vnil => [0]
  | .vbool b => [1, if b then 1 else 0]
  | .vint n => 2 :: intEnc n
  | .vrat q => 3 :: intEnc q.num ++ [q.den]
  | .vstr s => 4 :: strEnc s
  | .vlist l => 5 :: l.length :: mpEncodeList l
  | .vmap m => 6 :: m.length :: mpEncodeMap m

/-- Concatenated encodings of the elements of a list. -/
def mpEncodeList : List MPVal → List Nat
  | [] => []
  | v :: r => mpEncode v ++ mpEncodeList r

/-- Concatenated encodings of the entries of a map. -/
def mpEncodeMap : List (String × MPVal) → List Nat
  | [] => []
  | (k, v) :: r => strEnc k ++ mpEncode v ++ mpEncodeMap r

end

mutual

/-- Fuel-indexed decoder for `mpEncode`; `none` models `msgpack.unpackb`
raising on malformed input. -/
def mpDecode : Nat → List Nat → Option (MPVal × List Nat)
  | 0, _ => none
  | fuel + 1, toks =>
    match toks with
    | 0 :: r => some (.vnil, r)
    | 1 :: b :: r => some (.vbool (b == 1), r)
    | 2 :: r => (intDec r).map (fun p => (.vint p.1, p.2))
    | 3 :: r =>
      match intDec r with
      | some (n, d :: r') => some (.vrat (mkRat n d), r')
      | _ => none
    | 4 :: r => (strDec r).map (fun p => (.vstr p.1, p.2))
    | 5 :: len :: r => (mpDecodeList fuel len r).map (fun p => (.vlist p.1, p.2))
    | 6 :: len :: r => (mpDecodeMap fuel len r).map (fun p => (.vmap p.1, p.2))
    | _ => none

/-- Decode `n` consecutive values. -/
def mpDecodeList : Nat → Nat → List Nat → Option (List MPVal × List Nat)
  | _, 0, r => some ([], r)
  | 0, _ + 1, _ => none
  | fuel + 1, n + 1, r =>
    match mpDecode fuel r with
    | some (v, r') =>
      match mpDecodeList fuel n r' with
      | some (vs, r'') => some (v :: vs, r'')
      | none => none
    | none => none

/-- Decode `n` consecutive key/value entries. -/
def mpDecodeMap : Nat → Nat → List Nat → Option (List (String × MPVal) × List Nat)
  | _, 0, r => some ([], r)
  | 0, _ + 1, _ => none
  | fuel + 1, n + 1, r =>
    match strDec r with
    | some (k, r') =>
      match mpDecode fuel r' with
      | some (v, r'') =>
        match mpDecodeMap fuel n r'' with
        | some (vs, r''') => some ((k, v) :: vs, r''')
        | none => none
      | none => none
    | none => none

end

/-- Full decode: model of `msgpack.unpackb`, which consumes the whole
buffer and raises on trailing data.  The fuel bound `2·|toks| + 1` is
provably enough for every encoded value (`mpFuel_le_encode`). -/
def mpDecodeFull (toks : List Nat) : Option MPVal :=
  match mpDecode (2 * toks.length + 1) toks with
  | some (v, []) => some v
  | _ => none

/-- A Python-level value handled by the cache: either a plain msgpack
value or a numpy array, represented by its `(dtype, shape, tolist)`
triple, which determines the array uniquely. -/
inductive PyObj where
  | mp (v : MPVal)
  | nparr (dtype : String) (shape : List Int) (data : MPVal)

/-- Python truthiness of `obj.get('_numpy')` (line 185). -/
def truthy : Option MPVal → Bool
  | none => false
  | some .vnil => false
  | some (.vbool b) => b
  | some (.vint n) => n != 0
  | some (.vrat q) => q != 0
  | some (.vstr s) => s != ""
  | some (.vlist l) => !l.isEmpty
  | some (.vmap m) => !m.isEmpty

/-- Lookup in a msgpack map (Python `dict` access). -/
def mlookup (m : List (String × MPVal)) (key : String) : Option MPVal :=
  (m.find? (fun p => p.1 == key)).map (fun p => p.2)

/-- Extract an integer shape from a decoded msgpack list; `none` models
`reshape` raising on non-integer entries. -/
def asShape : List MPVal → Option (List Int)
  | [] => some []
  | .vint n :: r => (asShape r).map (fun l => n :: l)
  | _ => none

/-- Model of `_serialize` (lines 170-178): wrap a numpy array as
`{'_numpy': True, 'data': tolist, 'dtype': str(dtype), 'shape': shape}`
(that literal key order) and hand the value to msgpack. -/
def serializeVal : PyObj → MPVal
  | .mp v => v
  | .nparr dtype shape data =>
      .vmap [("_numpy", .vbool true), ("data", data), ("dtype", .vstr dtype),
             ("shape", .vlist (shape.map (fun n => .vint n)))]

/-- Model of `_deserialize` (lines 180-189): if the decoded object is a
dict whose `'_numpy'` entry is truthy, rebuild the array via
`np.array(obj['data'], dtype=obj['dtype']).reshape(obj['shape'])` —
modelled as repackaging the `(dtype, shape, data)` triple; a missing key
or ill-typed field raises (`none`), which callers treat as a decode
failure. -/
def deserializeVal (v : MPVal) : Option PyObj :=
  match v with
  | .vmap m =>
      if truthy (mlookup m "_numpy") then
        match mlookup m "data", mlookup m "dtype", mlookup m "shape" with
        | some data, some (.vstr dtype), some (.vlist shape) =>
            (asShape shape).map (fun s => PyObj.nparr dtype s data)
        | _, _, _ => none
      else some (.mp v)
  | _ => some (.mp v)

/-- Recognizes the values on which `_serialize` is not injective: a plain
dict whose `'_numpy'` key is truthy is indistinguishable from a wrapped
numpy array. -/
def numpyTagged : PyObj → Bool
  | .mp (.vmap m) => truthy (mlookup m "_numpy")
  | _ => false

/-! ## Compression (`caching_layer.py`, `_compress` / `_decompress`)

`lz4.frame.compress` / `decompress` are an external inverse pair of byte
codecs whose output may or may not be shorter than the input.  They are
modelled by a run-length codec, which has both behaviours (repetitive
payloads shrink, incompressible payloads grow), so the conditional
branches of `_compress` are all exercised. -/

/-- Modelled from the spec: the compressing direction of the external
`lz4.frame` codec (run-length encoding: `count, value` pairs). -/
def rleChunks : Nat → Nat → List Nat → List Nat
  | count, v, [] => [count, v]
  | count, v, w :: rest =>
    if w = v then rleChunks (count + 1) v rest
    else count :: v :: rleChunks 1 w rest

/-- Modelled from the spec: `lz4.frame.compress`. -/
def lz4Compress : List Nat → List Nat
  | [] => []
  | v :: rest => rleChunks 1 v rest

/-- Modelled from the spec: `lz4.frame.decompress`; `none` models the
library raising on corrupt input. -/
def lz4Decompress : List Nat → Option (List Nat)
  | [] => some []
  | count :: v :: rest => (lz4Decompress rest).map (fun l => List.replicate count v ++ l)
  | [_] => none

/-- Model of `_compress` (lines 191-204) minus its statistics side
effect, which the call sites apply from the returned pair: compress when
the data exceeds the threshold AND the compressed form is strictly
smaller; the Bool is the `was_compressed` flag. -/
def compressBytes (threshold : Nat) (data : List Nat) : List Nat × Bool :=
  if threshold < data.length then
    let compressed := lz4Compress data
    if compressed.length < data.length then (compressed, true) else (data, false)
  else (data, false)

/-- Model of `_decompress` (lines 206-210). -/
def decompressBytes (data : List Nat) (wasCompressed : Bool) : Option (List Nat) :=
  if wasCompressed then lz4Decompress data else some data

/-- The stored byte payload written by `cache_embedding` /
`cache_retrieval` (lines 321-328 / 401-403): serialize, conditionally
compress, and prefix the one-byte compression flag. -/
def encodeStored (threshold : Nat) (v : PyObj) : List Nat :=
  let serialized := mpEncode (serializeVal v)
  let c := compressBytes threshold serialized
  (if c.2 then 1 else 0) :: c.1

/-- The decode path of `get_cached_embedding` / `get_cached_retrieval`
(lines 285-293 / 367-369): dispatch on the flag byte, decompress if
flagged, deserialize; `none` is the decode-failure (exception) path. -/
def decodeStored (payload : List Nat) : Option PyObj :=
  match payload with
  | [] => none
  | flag :: body =>
    match decompressBytes body (flag == 1) with
    | some bytes =>
      match mpDecodeFull bytes with
      | some v => deserializeVal v
      | none => none
    | none => none

/-! ## Decimal rendering (model of Python `str(int)`) -/

/-- Little-endian decimal digits of `n`; the first argument is fuel
(`n` itself is always enough), keeping the definition structural. -/
def natDigitsAux : Nat → Nat → List Nat
  | 0, _ => []
  | _ + 1, 0 => []
  | fuel + 1, n + 1 => ((n + 1) % 10) :: natDigitsAux fuel ((n + 1) / 10)

/-- The character for a decimal digit. -/
def digitChar (d : Nat) : Char := Char.ofNat (48 + d)

/-- Numeric value of a decimal digit character. -/
def digitVal (c : Char) : Nat := c.toNat - 48

/-- Model of Python `str(n)` for a non-negative integer. -/
def natRepr (n : Nat) : String :=
  if n = 0 then "0" else String.mk (((natDigitsAux n n).map digitChar).reverse)

/-- Model of Python `str(n)` for an integer. -/
def intChars : Int → List Char
  | .ofNat m => (natRepr m).data
  | .negSucc m => '-' :: (natRepr (m + 1)).data

/-! ## JSON rendering (`cache_response` stores `json.dumps(response)`)

`json` is the Python standard-library codec, external to the repository;
it is modelled from its documented output shape (`dumps` with the
default `", "` / `": "` separators).  Floats are rendered as
`num/den` over `ℚ` instead of decimal notation — the claims depend only
on the structure of the stored text (in particular its first byte),
never on the spelling of a number. -/

/-- The double-quote character. -/
def qu : Char := Char.ofNat 34

/-- The backslash character. -/
def bslash : Char := Char.ofNat 92

/-- The opening curly bracket. -/
def lcurly : Char := Char.ofNat 123

/-- The closing curly bracket. -/
def rcurly : Char := Char.ofNat 125

/-- JSON string escaping (quote and backslash). -/
def jsonEscape : List Char → List Char
  | [] => []
  | c :: r => if c = qu || c = bslash then bslash :: c :: jsonEscape r else c :: jsonEscape r

/-- A JSON string literal. -/
def jsonStrChars (s : String) : List Char :=
  qu :: jsonEscape s.data ++ [qu]

/-- Rational rendering (see the section comment). -/
def ratChars (q : ℚ) : List Char :=
  intChars q.num ++ '/' :: (natRepr q.den).data

mutual

/-- Modelled from the spec: the text produced by `json.dumps`. -/
def jsonChars : MPVal → List Char
  | .vnil => "null".data
  | .vbool true => "true".data
  | .vbool false => "false".data
  | .vint n => intChars n
  | .vrat q => ratChars q
  | .vstr s => jsonStrChars s
  | .vlist l => '[' :: jsonItems l ++ [']']
  | .vmap m => lcurly :: jsonEntries m ++ [rcurly]

/-- Array items joined by `", "`. -/
def jsonItems : List MPVal → List Char
  | [] => []
  | [v] => jsonChars v
  | v :: r => jsonChars v ++ ',' :: ' ' :: jsonItems r

/-- Object entries `"key": value` joined by `", "`. -/
def jsonEntries : List (String × MPVal) → List Char
  | [] => []
  | [(k, v)] => jsonStrChars k ++ ':' :: ' ' :: jsonChars v
  | (k, v) :: r => jsonStrChars k ++ ':' :: ' ' :: jsonChars v ++ ',' :: ' ' :: jsonEntries r

end

/-- The bytes `json.dumps(response)` hands to the store (`str` is UTF-8
encoded by the client; codepoints coincide with bytes on the ASCII
fragment, and the claims depend only on the leading byte). -/
def jsonBytes (v : MPVal) : List Nat :=
  (jsonChars v).map Char.toNat

/-- Longest digit run at the head of the input. -/
def takeDigits : List Char → List Char × List Char
  | [] => ([], [])
  | c :: r =>
    if c.isDigit then
      let p := takeDigits r
      (c :: p.1, p.2)
    else ([], c :: r)

/-- Value of a digit run (most significant first). -/
def digitsToNat (ds : List Char) : Nat :=
  ds.foldl (fun a c => a * 10 + digitVal c) 0

/-- Skip blanks (the only whitespace `jsonChars` emits). -/
def skipSpaces : List Char → List Char
  | ' ' :: r => skipSpaces r
  | r => r

/-- Body of a JSON string literal, after the opening quote. -/
def parseStrChars : List Char → Option (List Char × List Char)
  | [] => none
  | c :: r =>
    if c = qu then some ([], r)
    else if c = bslash then
      match r with
      | d :: r' => (parseStrChars r').map (fun p => (d :: p.1, p.2))
      | [] => none
    else (parseStrChars r).map (fun p => (c :: p.1, p.2))

/-- A JSON number as rendered by `intChars` / `ratChars`. -/
def parseNum (cs : List Char) : Option (MPVal × List Char) :=
  let neg := cs.head? = some '-'
  let cs1 := if neg then cs.tail else cs
  match takeDigits cs1 with
  | ([], _) => none
  | (ds, rest) =>
    let n : Int := if neg then -(digitsToNat ds : Int) else (digitsToNat ds : Int)
    match rest with
    | '/' :: r2 =>
      match takeDigits r2 with
      | ([], _) => none
      | (es, rest2) => some (.vrat (mkRat n (digitsToNat es)), rest2)
    | _ => some (.vint n, rest)

mutual

/-- Modelled from the spec: `json.loads` (fuel-indexed recursive-descent
parser for the grammar `jsonChars` emits; `none` models the library
raising on malformed text).  No claim depends on its behaviour — it only
completes the definition of the response-cache read path. -/
def jsonParse : Nat → List Char → Option (MPVal × List Char)
  | 0, _ => none
  | fuel + 1, cs =>
    match skipSpaces cs with
    | 'n' :: 'u' :: 'l' :: 'l' :: r => some (.vnil, r)
    | 't' :: 'r' :: 'u' :: 'e' :: r => some (.vbool true, r)
    | 'f' :: 'a' :: 'l' :: 's' :: 'e' :: r => some (.vbool false, r)
    | c :: r =>
      if c = qu then (parseStrChars r).map (fun p => (.vstr (String.mk p.1), p.2))
      else if c = lcurly then (jsonParseEntries fuel r).map (fun p => (.vmap p.1, p.2))
      else if c = '[' then (jsonParseItems fuel r).map (fun p => (.vlist p.1, p.2))
      else parseNum (c :: r)
    | [] => none

/-- Array items after `[`, up to and including `]`. -/
def jsonParseItems : Nat → List Char → Option (List MPVal × List Char)
  | 0, _ => none
  | fuel + 1, cs =>
    match skipSpaces cs with
    | ']' :: r => some ([], r)
    | cs' =>
      match jsonParse fuel cs' with
      | some (v, rest) =>
        match skipSpaces rest with
        | ',' :: r2 => (jsonParseItems fuel r2).map (fun p => (v :: p.1, p.2))
        | ']' :: r2 => some ([v], r2)
        | _ => none
      | none => none

/-- Object entries after the opening brace, up to and including the
closing one. -/
def jsonParseEntries : Nat → List Char → Option (List (String × MPVal) × List Char)
  | 0, _ => none
  | fuel + 1, cs =>
    match skipSpaces cs with
    | c :: r =>
      if c = rcurly then some ([], r)
      else if c = qu then
        match parseStrChars r with
        | some (kcs, rest) =>
          match skipSpaces rest with
          | ':' :: r2 =>
            match jsonParse fuel r2 with
            | some (v, rest2) =>
              match skipSpaces rest2 with
              | ',' :: r3 => (jsonParseEntries fuel r3).map (fun p => ((String.mk kcs, v) :: p.1, p.2))
              | d :: r3 => if d = rcurly then some ([(String.mk kcs, v)], r3) else none
              | [] => none
            | none => none
          | _ => none
        | none => none
      else none
    | [] => none

end

/-- Modelled from the spec: `json.loads` on stored bytes. -/
def jsonLoads (bs : List Nat) : Option MPVal :=
  let cs := bs.map Char.ofNat
  match jsonParse (cs.length + 1) cs with
  | some (v, rest) => if (skipSpaces rest).isEmpty then some v else none
  | none => none

/-! ## Cache key derivation (`caching_layer.py`, lines 158-164, 274-275,
355-357, 426-428) -/

/-- Modelled from the spec: `hashlib.md5(query.encode()).hexdigest()` is
a deterministic, stable digest of the query text (spec §4.1).  Every
claim under verification fixes the query text, so only determinism and
stability matter; the digest is modelled by the text itself. -/
def hashQuery (query : String) : String := query

/-- Modelled from the spec: `hashlib.md5(embedding.tobytes()).hexdigest()`
is a deterministic digest of the vector's raw bytes; modelled by a
textual rendering of the serialized vector. -/
def hashEmbedding (e : PyObj) : String :=
  (mpEncode (serializeVal e)).foldr (fun n acc => natRepr n ++ "." ++ acc) ""

/-- The embedding-cache key `emb:{query_hash}` (line 275). -/
def embKey (query : String) : String :=
  "emb:" ++ hashQuery query

/-- The retrieval-cache filter suffix (line 356):
`f":{technology_filter}" if technology_filter else ":none"` — note the
Python truthiness test, under which the empty string also maps to
`":none"`. -/
def filterSuffix : Option String → String
  | some s => if s = "" then ":none" else ":" ++ s
  | none => ":none"

/-- The retrieval-cache key `ret:{embedding_hash}{filter_suffix}`
(line 357). -/
def retKey (e : PyObj) (technologyFilter : Option String) : String :=
  "ret:" ++ hashEmbedding e ++ filterSuffix technologyFilter

/-- The response-cache filter component (line 427):
`technology_filter if technology_filter else "none"`. -/
def filterPart : Option String → String
  | some s => if s = "" then "none" else s
  | none => "none"

/-- The response-cache key `resp:{query_hash}:{filter_part}:{top_k}`
(line 428). -/
def respKey (query : String) (technologyFilter : Option String) (topK : Nat) : String :=
  "resp:" ++ hashQuery query ++ ":" ++ filterPart technologyFilter ++ ":" ++ natRepr topK

/-! ## The tiered cache store (`RAGCacheManagerOptimized`)

The Redis backend is modelled in three conditions: `disabled` (the
constructor's `ping` failed, `self.redis is None`, lines 136-138),
`unreachable` (a connection object exists but every operation raises
`ConnectionError` / `TimeoutError`, which `_retry_operation` re-raises
after its bounded retries — the back-off sleeps are wall-clock and not
modelled), and `healthy kv` (operations succeed against the key/value
content `kv`, each entry holding its payload and the TTL it was stored
with).  Access counters (`access_count:*`, a namespace disjoint from the
three cache levels) are kept in a separate map; their daily expiry
(`pipe.expire(access_key, 86400)`) is wall-clock and not modelled — the
claims quantify over the recorded count.  The wall-clock average
operation latency (`avg_cache_operation_ms`) is likewise not modelled. -/

/-- The key/value backend contents: key ↦ (payload bytes, TTL). -/
abbrev KVStore := List (String × (List Nat × Nat))

/-- Redis `GET`. -/
def kvLookup (kv : KVStore) (key : String) : Option (List Nat × Nat) :=
  (kv.find? (fun p => p.1 == key)).map (fun p => p.2)

/-- Redis `SETEX` content update. -/
def kvSet (kv : KVStore) (key : String) (entry : List Nat × Nat) : KVStore :=
  if (kv.find? (fun p => p.1 == key)).isSome then
    kv.map (fun p => if p.1 == key then (key, entry) else p)
  else
    kv ++ [(key, entry)]

/-- The modelled Redis connection. -/
inductive Backend where
  | disabled
  | unreachable
  | healthy (kv : KVStore)
deriving DecidableEq

/-- Hit/miss and optimization counters (`self.stats`, lines 146-156). -/
structure CacheStats where
  embedding_hits : Nat := 0
  embedding_misses : Nat := 0
  retrieval_hits : Nat := 0
  retrieval_misses : Nat := 0
  response_hits : Nat := 0
  response_misses : Nat := 0
  compression_bytes_saved : Nat := 0
deriving DecidableEq

/-- The cache manager's state. -/
structure CacheState where
  backend : Backend
  accessCounts : List (String × Nat) := []
  stats : CacheStats := {}
  compression_threshold : Nat := 512
  enable_adaptive_ttl : Bool := true
  embedding_ttl : Nat := 3600
  retrieval_ttl : Nat := 21600
  response_ttl : Nat := 86400
deriving DecidableEq

/-- Model of `_is_cache_available` (lines 166-168): `self.redis` is
`None` exactly when the constructor's connection test failed. -/
def isCacheAvailable (st : CacheState) : Bool :=
  match st.backend with
  | .disabled => false
  | _ => true

/-- A backend read (`self.redis.get`, through `_retry_operation` where
the source uses it): `error` models the operation raising after the
bounded retries. -/
def redisGet (b : Backend) (key : String) : Except Unit (Option (List Nat × Nat)) :=
  match b with
  | .disabled => .error ()
  | .unreachable => .error ()
  | .healthy kv => .ok (kvLookup kv key)

/-- A backend write (`self.redis.setex` through `_retry_operation`). -/
def redisSetex (b : Backend) (key : String) (ttl : Nat) (payload : List Nat) :
    Except Unit Backend :=
  match b with
  | .disabled => .error ()
  | .unreachable => .error ()
  | .healthy kv => .ok (.healthy (kvSet kv key (payload, ttl)))

/-- Access-counter lookup. -/
def countLookup (counts : List (String × Nat)) (key : String) : Option Nat :=
  (counts.find? (fun p => p.1 == key)).map (fun p => p.2)

/-- Redis `INCR` on an access counter. -/
def countIncr (counts : List (String × Nat)) (key : String) : List (String × Nat) :=
  if (counts.find? (fun p => p.1 == key)).isSome then
    counts.map (fun p => if p.1 == key then (p.1, p.2 + 1) else p)
  else
    counts ++ [(key, 1)]

/-- Model of `_get_adaptive_ttl` (lines 212-237): skip when adaptive TTL
is disabled or the cache is unavailable; read the key's access counter
(an `unreachable` backend raises, caught by the bare `except`, falling
back to the base TTL); `count >= 10` doubles the TTL, `count >= 5` gives
`int(base_ttl * 1.5)` — integer truncation of the float product, i.e.
`base_ttl * 3 / 2` in integer division. -/
def getAdaptiveTTL (st : CacheState) (baseTTL : Nat) (key : String) : Nat :=
  if !(st.enable_adaptive_ttl && isCacheAvailable st) then baseTTL
  else
    match st.backend with
    | .healthy _ =>
      match countLookup st.accessCounts ("access_count:" ++ key) with
      | some count =>
        if 10 ≤ count then baseTTL * 2
        else if 5 ≤ count then baseTTL * 3 / 2
        else baseTTL
      | none => baseTTL
    | _ => baseTTL

/-- Model of `_record_access` (lines 239-251): `INCR` the key's counter;
failures are swallowed (`except: pass`). -/
def recordAccess (st : CacheState) (key : String) : CacheState :=
  if !(st.enable_adaptive_ttl && isCacheAvailable st) then st
  else
    match st.backend with
    | .healthy _ =>
      { st with accessCounts := countIncr st.accessCounts ("access_count:" ++ key) }
    | _ => st

/-- Bump one statistics counter. -/
def bumpStat (st : CacheState) (f : CacheStats → CacheStats) : CacheState :=
  { st with stats := f st.stats }

/-- Model of `get_cached_embedding` (lines 267-306).  Note the order on
the hit path: the hit counter is incremented and the access recorded
*before* decoding; a decode failure then falls into the `except` clause,
which also increments the miss counter. -/
def getCachedEmbedding (st : CacheState) (query : String) : CacheState × Option PyObj :=
  if !isCacheAvailable st then (st, none)
  else
    match redisGet st.backend (embKey query) with
    | .error _ =>
      (bumpStat st (fun s => { s with embedding_misses := s.embedding_misses + 1 }), none)
    | .ok none =>
      (bumpStat st (fun s => { s with embedding_misses := s.embedding_misses + 1 }), none)
    | .ok (some (payload, _)) =>
      if payload.isEmpty then
        (bumpStat st (fun s => { s with embedding_misses := s.embedding_misses + 1 }), none)
      else
        let st1 := bumpStat st (fun s => { s with embedding_hits := s.embedding_hits + 1 })
        let st2 := recordAccess st1 (embKey query)
        match decodeStored payload with
        | some v => (st2, some v)
        | none =>
          (bumpStat st2 (fun s => { s with embedding_misses := s.embedding_misses + 1 }), none)

/-- Model of `cache_embedding` (lines 308-342): serialize, conditionally
compress (crediting `compression_bytes_saved` as `_compress` does),
prefix the flag byte, compute the adaptive TTL and `SETEX`; any backend
failure is caught and leaves the entry unwritten. -/
def cacheEmbedding (st : CacheState) (query : String) (value : PyObj) : CacheState :=
  if !isCacheAvailable st then st
  else
    let serialized := mpEncode (serializeVal value)
    let c := compressBytes st.compression_threshold serialized
    let payload := (if c.2 then 1 else 0) :: c.1
    let saved := if c.2 then serialized.length - c.1.length else 0
    let st1 := bumpStat st
      (fun s => { s with compression_bytes_saved := s.compression_bytes_saved + saved })
    let ttl := getAdaptiveTTL st1 st1.embedding_ttl (embKey query)
    match redisSetex st1.backend (embKey query) ttl payload with
    | .ok b => { st1 with backend := b }
    | .error _ => st1

/-- Model of `get_cached_retrieval` (lines 346-382); the decode path is
the same flag dispatch as the embedding level. -/
def getCachedRetrieval (st : CacheState) (embedding : PyObj)
    (technologyFilter : Option String) : CacheState × Option PyObj :=
  if !isCacheAvailable st then (st, none)
  else
    match redisGet st.backend (retKey embedding technologyFilter) with
    | .error _ =>
      (bumpStat st (fun s => { s with retrieval_misses := s.retrieval_misses + 1 }), none)
    | .ok none =>
      (bumpStat st (fun s => { s with retrieval_misses := s.retrieval_misses + 1 }), none)
    | .ok (some (payload, _)) =>
      if payload.isEmpty then
        (bumpStat st (fun s => { s with retrieval_misses := s.retrieval_misses + 1 }), none)
      else
        let st1 := bumpStat st (fun s => { s with retrieval_hits := s.retrieval_hits + 1 })
        let st2 := recordAccess st1 (retKey embedding technologyFilter)
        match decodeStored payload with
        | some v => (st2, some v)
        | none =>
          (bumpStat st2 (fun s => { s with retrieval_misses := s.retrieval_misses + 1 }), none)

/-- Model of `cache_retrieval` (lines 384-412). -/
def cacheRetrieval (st : CacheState) (embedding : PyObj) (results : PyObj)
    (technologyFilter : Option String) : CacheState :=
  if !isCacheAvailable st then st
  else
    let serialized := mpEncode (serializeVal results)
    let c := compressBytes st.compression_threshold serialized
    let payload := (if c.2 then 1 else 0) :: c.1
    let saved := if c.2 then serialized.length - c.1.length else 0
    let st1 := bumpStat st
      (fun s => { s with compression_bytes_saved := s.compression_bytes_saved + saved })
    let ttl := getAdaptiveTTL st1 st1.retrieval_ttl (retKey embedding technologyFilter)
    match redisSetex st1.backend (retKey embedding technologyFilter) ttl payload with
    | .ok b => { st1 with backend := b }
    | .error _ => st1

/-- Model of `get_cached_response` (lines 416-452): the response level
parses the stored bytes with `json.loads` directly — no flag byte. -/
def getCachedResponse (st : CacheState) (query : String)
    (technologyFilter : Option String) (topK : Nat) : CacheState × Option MPVal :=
  if !isCacheAvailable st then (st, none)
  else
    match redisGet st.backend (respKey query technologyFilter topK) with
    | .error _ =>
      (bumpStat st (fun s => { s with response_misses := s.response_misses + 1 }), none)
    | .ok none =>
      (bumpStat st (fun s => { s with response_misses := s.response_misses + 1 }), none)
    | .ok (some (payload, _)) =>
      if payload.isEmpty then
        (bumpStat st (fun s => { s with response_misses := s.response_misses + 1 }), none)
      else
        let st1 := bumpStat st (fun s => { s with response_hits := s.response_hits + 1 })
        let st2 := recordAccess st1 (respKey query technologyFilter topK)
        match jsonLoads payload with
        | some v => (st2, some v)
        | none =>
          (bumpStat st2 (fun s => { s with response_misses := s.response_misses + 1 }), none)

/-- Model of `cache_response` (lines 454-482): the response is stored as
raw JSON text (`data = json.dumps(response)`), with no compression and
no flag byte. -/
def cacheResponse (st : CacheState) (query : String) (response : MPVal)
    (technologyFilter : Option String) (topK : Nat) : CacheState :=
  if !isCacheAvailable st then st
  else
    let data := jsonBytes response
    let ttl := getAdaptiveTTL st st.response_ttl (respKey query technologyFilter topK)
    match redisSetex st.backend (respKey query technologyFilter topK) ttl data with
    | .ok b => { st with backend := b }
    | .error _ => st

/-- One level's block of `get_cache_stats` (lines 527-551). -/
structure LevelStats where
  hits : Nat
  misses : Nat
  total : Nat
  hit_rate : ℚ
deriving DecidableEq

/-- The `embedding_cache` block of `get_cache_stats` (lines 529, 534-539). -/
def embeddingCacheStats (st : CacheState) : LevelStats :=
  let total := st.stats.embedding_hits + st.stats.embedding_misses
  { hits := st.stats.embedding_hits
    misses := st.stats.embedding_misses
    total := total
    hit_rate := if 0 < total then (st.stats.embedding_hits : ℚ) / total * 100 else 0 }

/-! ## BM25 keyword index (`bm25_indexer.py`) -/

/-- One search hit (lines 136-143). -/
structure BMResult where
  doc_id : String
  content : String
  bm25_score : ℚ
  technology : String
  source_url : String
  source_file : String
deriving DecidableEq

/-- The indexer's state (lines 25-30): `bm25_index` is `None` until a
successful `build_index` / `load_index`; the corpus arrays are parallel.
The built `BM25Okapi` object is represented by the tokenized corpus it
was constructed from. -/
structure BM25Indexer where
  bm25_index : Option (List (List String)) := none
  documents : List String := []
  metadatas : List (List (String × String)) := []
  doc_ids : List String := []

/-- The freshly constructed indexer (`__init__`). -/
def BM25Indexer.init : BM25Indexer := {}

/-- A regex `\w` word character (ASCII fragment; the corpus and claims
are ASCII). -/
def isWordChar (c : Char) : Bool :=
  c.isAlphanum || c == '_'

/-- Maximal runs of word characters (`re.findall(r'\b\w+\b', ·)`); the
accumulator holds the current run reversed. -/
def wordRuns : List Char → List Char → List (List Char)
  | [], acc => if acc.isEmpty then [] else [acc.reverse]
  | c :: rest, acc =>
    if isWordChar c then wordRuns rest (c :: acc)
    else if acc.isEmpty then wordRuns rest [] else acc.reverse :: wordRuns rest []

/-- Model of `tokenize` (lines 32-36): lowercase, split on non-word
boundaries, keep tokens of length > 2. -/
def tokenize (text : String) : List String :=
  ((wordRuns text.toLower.data []).filter (fun t => 2 < t.length)).map (fun t => String.mk t)

/-- Modelled from the spec: the scores `BM25Okapi.get_scores` (external
`rank_bm25` library) assigns — one lexical-relevance score per corpus
document, zero exactly for documents sharing no token with the query.
No claim under verification depends on the scores' values, only on the
result structure, so the BM25 weighting (which needs real logarithms) is
stood in for by the query-token match count. -/
def bm25Scores (corpus : List (List String)) (queryTokens : List String) : List ℚ :=
  corpus.map (fun doc => ((doc.filter (fun t => queryTokens.contains t)).length : ℚ))

/-- Python `metadata.get(key)` on a metadata dict. -/
def metaGet (m : List (String × String)) (key : String) : Option String :=
  (m.find? (fun p => p.1 == key)).map (fun p => p.2)

/-- Build the result record for document `idx` (lines 136-143). -/
def bmRecord (st : BM25Indexer) (idx : Nat) (score : ℚ) : BMResult :=
  let metadata := st.metadatas.getD idx []
  { doc_id := st.doc_ids.getD idx ""
    content := st.documents.getD idx ""
    bm25_score := score
    technology := (metaGet metadata "technology").getD "Unknown"
    source_url := (metaGet metadata "source_url").getD ""
    source_file := (metaGet metadata "source_file").getD "" }

/-- The filter test of lines 132-134: skip the document when a truthy
technology filter is set and the metadata's `technology` differs (a
document with no `technology` key compares `None != filter`, hence is
skipped too). -/
def passesFilter (st : BM25Indexer) (idx : Nat) (technologyFilter : Option String) : Bool :=
  match technologyFilter with
  | none => true
  | some f =>
    if f = "" then true
    else metaGet (st.metadatas.getD idx []) "technology" == some f

/-- The result-collection loop of lines 127-143. -/
def collectResults (st : BM25Indexer) (technologyFilter : Option String) :
    Nat → List ℚ → List BMResult
  | _, [] => []
  | idx, score :: rest =>
    if 0 < score then
      if passesFilter st idx technologyFilter then
        bmRecord st idx score :: collectResults st technologyFilter (idx + 1) rest
      else collectResults st technologyFilter (idx + 1) rest
    else collectResults st technologyFilter (idx + 1) rest

/-- Model of `BM25Indexer.search` (lines 107-147): an unbuilt index
fails fast with the explicit message; a query that tokenizes to nothing
returns the empty result list; otherwise score, filter, sort descending
and truncate to `top_k`. -/
def BM25Indexer.search (st : BM25Indexer) (query : String) (topK : Nat)
    (technologyFilter : Option String) : Except String (List BMResult) :=
  match st.bm25_index with
  | none => .error "BM25 index not loaded. Call build_index() or load_index() first."
  | some corpus =>
    let tokenizedQuery := tokenize query
    if tokenizedQuery.isEmpty then .ok []
    else
      let scores := bm25Scores corpus tokenizedQuery
      let results := collectResults st technologyFilter 0 scores
      .ok ((sortDescBy (fun r => r.bm25_score) results).take topK)

/-- Model of `build_index` (lines 38-70) after the external collection
fetch: store the parallel arrays and index the tokenized corpus. -/
def BM25Indexer.buildIndex (docs : List String) (metas : List (List (String × String)))
    (ids : List String) : BM25Indexer :=
  { bm25_index := some (docs.map tokenize)
    documents := docs
    metadatas := metas
    doc_ids := ids }

/-! ## Auxiliary definitions used by the proofs -/

mutual

/-- Fuel sufficient for `mpDecode` to decode an encoded value. -/
def mpFuel : MPVal → Nat
  | .vlist l => mpFuelList l + 1
  | .vmap m => mpFuelMap m + 1
  | _ => 1

/-- Fuel sufficient for `mpDecodeList`. -/
def mpFuelList : List MPVal → Nat
  | [] => 0
  | v :: r => mpFuel v + mpFuelList r + 1

/-- Fuel sufficient for `mpDecodeMap`. -/
def mpFuelMap : List (String × MPVal) → Nat
  | [] => 0
  | (_, v) :: r => mpFuel v + mpFuelMap r + 1

end

/-- The score accumulation a single `fuse` loop performs, read off the
contents in list order with ranks from `rank`: the pure counterpart of
the `scores` component of `semPass` / `keyPass`. -/
def scorePass (k : Nat) (w : ℚ) : List String → Nat → Scores → Scores
  | [], _, scores => scores
  | c :: rest, rank, scores =>
    scorePass k w rest (rank + 1) (bump scores c (w * (1 / ((k : ℚ) + rank))))

/-- Value of little-endian decimal digits (proof tool for `natRepr`
injectivity). -/
def fdVal : List Nat → Nat
  | [] => 0
  | d :: r => d + 10 * fdVal r

/-- Left inverse of `natRepr` (proof tool). -/
def reprVal (l : List Char) : Nat :=
  fdVal (l.reverse.map digitVal)

/-- Filters on which the response-key derivation is injective: absent,
or a name that is neither empty nor the literal `"none"` (the values the
key format reserves for "no filter"). -/
def validFilter : Option String → Bool
  | some s => s != "" && s != "none"
  | none => true

/-- The spec's worked RRF example (§8): semantic results A (0.9) and
B (0.8), keyword results B (10) and C (5), as four dicts in a store. -/
def storeEx : Store :=
  [[("content", .str "A"), ("similarity_score", .num (9/10))],
   [("content", .str "B"), ("similarity_score", .num (8/10))],
   [("content", .str "B"), ("bm25_score", .num 10)],
   [("content", .str "C"), ("bm25_score", .num 5)]]

/-- Three one-field documents used to witness the accumulation claim. -/
def storeW : Store :=
  [[("content", .str "A")], [("content", .str "B")], [("content", .str "C")]]

/-- A healthy cache whose store holds, under the embedding key for query
`"q"`, the payload `b'\x00'` — flag byte 0 followed by an empty body,
which `msgpack.unpackb` rejects: a stored entry whose decode fails. -/
def corruptPayloadState : CacheState :=
  { backend := .healthy [(embKey "q", ([0], 3600))] }

/-- A healthy cache that recorded five accesses for the key `"k"`. -/
def fiveAccessState : CacheState :=
  { backend := .healthy [], accessCounts := [("access_count:k", 5)] }

/-- A healthy cache with empty contents. -/
def emptyHealthyState : CacheState :=
  { backend := .healthy [] }

/-- The cache after the constructor's connection test failed
(`self.redis = None`). -/
def disabledState : CacheState :=
  { backend := .disabled }

/-- A cache whose connection breaks during operations. -/
def unreachableState : CacheState :=
  { backend := .unreachable }

/-- A plain dict value that carries a truthy `'_numpy'` key: the shape
`_serialize` reserves for wrapped numpy arrays. -/
def collidingVal : PyObj :=
  .mp (.vmap [("_numpy", .vbool true), ("data", .vlist [.vrat 0]),
              ("dtype", .vstr "float64"), ("shape", .vlist [.vint 1])])

/-- A small structured value (serializes under the 512-byte threshold,
stored uncompressed). -/
def smallVal : PyObj := .mp (.vstr "hello")

/-- A large repetitive value (serializes above the 512-byte threshold
and compresses smaller, stored compressed). -/
def bigVal : PyObj := .mp (.vstr (String.mk (List.replicate 600 'a')))

/-- A numeric vector: dtype `float32`, shape `(2,)`, data `[0.5, 0.25]`. -/
def vecVal : PyObj := .nparr "float32" [2] (.vlist [.vrat (1/2), .vrat (1/4)])

/-! ## Lemmas: serialization codec round-trip -/

theorem intDec_intEnc (n : Int) (rest : List Nat) :
    intDec (intEnc n ++ rest) = some (n, rest) := by
  cases n <;> rfl

theorem strDecAux_map (l : List Char) (rest : List Nat) :
    strDecAux l.length (l.map Char.toNat ++ rest) = some (l, rest) := by
  induction l with
  | nil => rfl
  | cons c r ih => simp [strDecAux, ih, Char.ofNat_toNat]

theorem strDec_strEnc (s : String) (rest : List Nat) :
    strDec (strEnc s ++ rest) = some (s, rest) := by
  cases s with
  | mk data => simp [strDec, strEnc, strDecAux_map]

theorem mpFuel_pos (v : MPVal) : 1 ≤ mpFuel v := by
  cases v <;> simp [mpFuel]

mutual

theorem mpDecode_mpEncode : ∀ (v : MPVal) (fuel : Nat) (rest : List Nat),
    mpFuel v ≤ fuel → mpDecode fuel (mpEncode v ++ rest) = some (v, rest)
  | v, 0, _, h => absurd (le_trans (mpFuel_pos v) h) (by omega)
  | .vnil, fuel + 1, rest, _ => by simp [mpEncode, mpDecode]
  | .vbool b, fuel + 1, rest, _ => by cases b <;> simp [mpEncode, mpDecode]
  | .vint n, fuel + 1, rest, _ => by
    simp [mpEncode, mpDecode, intDec_intEnc]
  | .vrat q, fuel + 1, rest, _ => by
    have h := intDec_intEnc q.num (q.den :: rest)
    simp [mpEncode, mpDecode, List.append_assoc] at h ⊢
    simp [h, Rat.mkRat_self]
  | .vstr s, fuel + 1, rest, _ => by
    simp [mpEncode, mpDecode, strDec_strEnc]
  | .vlist l, fuel + 1, rest, h => by
    have hl : mpFuelList l ≤ fuel := by simp [mpFuel] at h; omega
    simp [mpEncode, mpDecode, List.append_assoc,
      mpDecodeList_mpEncodeList l fuel rest hl]
  | .vmap m, fuel + 1, rest, h => by
    have hm : mpFuelMap m ≤ fuel := by simp [mpFuel] at h; omega
    simp [mpEncode, mpDecode, List.append_assoc,
      mpDecodeMap_mpEncodeMap m fuel rest hm]

theorem mpDecodeList_mpEncodeList : ∀ (l : List MPVal) (fuel : Nat) (rest : List Nat),
    mpFuelList l ≤ fuel → mpDecodeList fuel l.length (mpEncodeList l ++ rest) = some (l, rest)
  | [], fuel, rest, _ => by simp [mpEncodeList, mpDecodeList]
  | v :: r, 0, rest, h => by simp [mpFuelList] at h
  | v :: r, fuel + 1, rest, h => by
    have h1 : mpFuel v ≤ fuel := by simp [mpFuelList] at h; omega
    have h2 : mpFuelList r ≤ fuel := by simp [mpFuelList] at h; omega
    simp [mpEncodeList, mpDecodeList, List.append_assoc,
      mpDecode_mpEncode v fuel _ h1, mpDecodeList_mpEncodeList r fuel rest h2]

theorem mpDecodeMap_mpEncodeMap : ∀ (m : List (String × MPVal)) (fuel : Nat) (rest : List Nat),
    mpFuelMap m ≤ fuel → mpDecodeMap fuel m.length (mpEncodeMap m ++ rest) = some (m, rest)
  | [], fuel, rest, _ => by simp [mpEncodeMap, mpDecodeMap]
  | (k, v) :: r, 0, rest, h => by simp [mpFuelMap] at h
  | (k, v) :: r, fuel + 1, rest, h => by
    have h1 : mpFuel v ≤ fuel := by simp [mpFuelMap] at h; omega
    have h2 : mpFuelMap r ≤ fuel := by simp [mpFuelMap] at h; omega
    simp [mpEncodeMap, mpDecodeMap, List.append_assoc, strDec_strEnc,
      mpDecode_mpEncode v fuel _ h1, mpDecodeMap_mpEncodeMap r fuel rest h2]

end

theorem strEnc_length (s : String) : (strEnc s).length = s.data.length + 1 := by
  simp [strEnc]

mutual

theorem mpFuel_le : ∀ (v : MPVal), mpFuel v + 1 ≤ 2 * (mpEncode v).length
  | .vnil => by simp [mpFuel, mpEncode]
  | .vbool b => by simp [mpFuel, mpEncode]
  | .vint n => by cases n <;> simp [mpFuel, mpEncode, intEnc]
  | .vrat q => by cases hq : q.num <;> simp [mpFuel, mpEncode, intEnc, hq]
  | .vstr s => by simp [mpFuel, mpEncode, strEnc_length]
  | .vlist l => by
    have := mpFuelList_le l
    simp [mpFuel, mpEncode]; omega
  | .vmap m => by
    have := mpFuelMap_le m
    simp [mpFuel, mpEncode]; omega

theorem mpFuelList_le : ∀ (l : List MPVal), mpFuelList l ≤ 2 * (mpEncodeList l).length
  | [] => by simp [mpFuelList, mpEncodeList]
  | v :: r => by
    have h1 := mpFuel_le v
    have h2 := mpFuelList_le r
    simp [mpFuelList, mpEncodeList]; omega

theorem mpFuelMap_le : ∀ (m : List (String × MPVal)), mpFuelMap m ≤ 2 * (mpEncodeMap m).length
  | [] => by simp [mpFuelMap, mpEncodeMap]
  | (k, v) :: r => by
    have h1 := mpFuel_le v
    have h2 := mpFuelMap_le r
    have h3 := strEnc_length k
    simp [mpFuelMap, mpEncodeMap]; omega

end

theorem mpDecodeFull_mpEncode (v : MPVal) : mpDecodeFull (mpEncode v) = some v := by
  have hf : mpFuel v ≤ 2 * (mpEncode v).length + 1 := by
    have := mpFuel_le v; omega
  have h := mpDecode_mpEncode v (2 * (mpEncode v).length + 1) [] hf
  rw [List.append_nil] at h
  simp [mpDecodeFull, h]

/-! ## Lemmas: compression round-trip -/

theorem lz4Decompress_rleChunks (rest : List Nat) : ∀ (count v : Nat),
    lz4Decompress (rleChunks count v rest) = some (List.replicate count v ++ rest) := by
  induction rest with
  | nil => intro c v; simp [rleChunks, lz4Decompress]
  | cons w r ih =>
    intro c v
    rw [rleChunks]
    by_cases h : w = v
    · subst h
      rw [if_pos rfl, ih]
      congr 1
      rw [List.replicate_succ']
      simp
    · rw [if_neg h]
      simp [lz4Decompress, ih]

theorem lz4_roundtrip (l : List Nat) : lz4Decompress (lz4Compress l) = some l := by
  cases l with
  | nil => rfl
  | cons v rest => simp [lz4Compress, lz4Decompress_rleChunks]

theorem decompressBytes_compressBytes (t : Nat) (s : List Nat) :
    decompressBytes (compressBytes t s).1 (compressBytes t s).2 = some s := by
  rw [show compressBytes t s
      = if t < s.length then
          (if (lz4Compress s).length < s.length then (lz4Compress s, true) else (s, false))
        else (s, false) from rfl]
  split
  · split
    · simp [decompressBytes, lz4_roundtrip]
    · simp [decompressBytes]
  · simp [decompressBytes]

/-! ## Lemmas: serialize / deserialize -/

theorem asShape_map (shape : List Int) :
    asShape (shape.map (fun n => .vint n)) = some shape := by
  induction shape with
  | nil => rfl
  | cons n r ih => simp [asShape, ih]

theorem deserializeVal_serializeVal (v : PyObj) (h : numpyTagged v = false) :
    deserializeVal (serializeVal v) = some v := by
  cases v with
  | mp w =>
    cases w with
    | vmap m =>
      simp [numpyTagged] at h
      simp [serializeVal, deserializeVal, h]
    | vnil => rfl
    | vbool b => rfl
    | vint n => rfl
    | vrat q => rfl
    | vstr s => rfl
    | vlist l => rfl
  | nparr dtype shape data =>
    simp [serializeVal, deserializeVal, truthy, mlookup, asShape_map]

theorem decodeStored_encodeStored (threshold : Nat) (v : PyObj)
    (h : numpyTagged v = false) :
    decodeStored (encodeStored threshold v) = some v := by
  unfold encodeStored decodeStored
  have hflag : ((if (compressBytes threshold (mpEncode (serializeVal v))).2 then 1 else 0 : Nat) == 1)
      = (compressBytes threshold (mpEncode (serializeVal v))).2 := by
    cases (compressBytes threshold (mpEncode (serializeVal v))).2 <;> rfl
  simp only [hflag, decompressBytes_compressBytes, mpDecodeFull_mpEncode]
  exact deserializeVal_serializeVal v h

/-! ## Claim C6: serialization round-trip -/

/-- C6 (amended): deserializing the serialized-and-conditionally-
compressed payload of any value recovers the value — numeric vectors and
all nested structured values EXCEPT maps carrying a truthy `'_numpy'`
key, which `_deserialize` mistakes for a wrapped array (see the
counterexample) — for every compression threshold, so both with and
without compression applied. -/
theorem serialize_roundtrip (threshold : Nat) (v : PyObj)
    (h : numpyTagged v = false) :
    decodeStored (encodeStored threshold v) = some v :=
  decodeStored_encodeStored threshold v h

theorem serialize_roundtrip_witness :
    numpyTagged vecVal = false ∧ decodeStored (encodeStored 512 vecVal) = some vecVal ∧
      numpyTagged bigVal = false ∧ decodeStored (encodeStored 512 bigVal) = some bigVal ∧
      (encodeStored 512 vecVal).head? = some 0 ∧ (encodeStored 512 bigVal).head? = some 1 :=
  ⟨by with_unfolding_all rfl, serialize_roundtrip 512 vecVal (by with_unfolding_all rfl),
   by with_unfolding_all rfl, serialize_roundtrip 512 bigVal (by with_unfolding_all rfl),
   by with_unfolding_all rfl, by with_unfolding_all rfl⟩

/-- C6 (counterexample): a plain map whose `'_numpy'` key is truthy is a
"nested structured value built from maps, sequences, strings, numbers
and booleans", yet decoding its encoding yields a numpy array, not the
map. -/
theorem serialize_roundtrip_fails_on_numpy_tag :
    decodeStored (encodeStored 512 collidingVal)
        = some (.nparr "float64" [1] (.vlist [.vrat 0])) ∧
      some (PyObj.nparr "float64" [1] (.vlist [.vrat 0])) ≠ some collidingVal := by
  refine ⟨by with_unfolding_all rfl, ?_⟩
  intro h
  rw [Option.some_inj] at h
  simp only [collidingVal] at h
  exact PyObj.noConfusion h

/-! ## Lemmas: decimal representation and key separators (claim C4) -/

theorem natDigitsAux_fd : ∀ (fuel n : Nat), n ≤ fuel →
    fdVal (natDigitsAux fuel n) = n := by
  intro fuel
  induction fuel with
  | zero =>
    intro n h
    interval_cases n
    rfl
  | succ f ih =>
    intro n h
    match n with
    | 0 => rfl
    | m + 1 =>
      have hdiv : (m + 1) / 10 ≤ f := by
        have := Nat.div_lt_self (Nat.succ_pos m) (by norm_num : 1 < 10)
        omega
      simp only [natDigitsAux, fdVal, ih _ hdiv]
      exact Nat.mod_add_div (m + 1) 10

theorem natDigitsAux_lt : ∀ (fuel n d : Nat), d ∈ natDigitsAux fuel n → d < 10 := by
  intro fuel
  induction fuel with
  | zero => intro n d h; simp [natDigitsAux] at h
  | succ f ih =>
    intro n d h
    match n with
    | 0 => simp [natDigitsAux] at h
    | m + 1 =>
      simp only [natDigitsAux, List.mem_cons] at h
      rcases h with h | h
      · subst h; exact Nat.mod_lt _ (by norm_num)
      · exact ih _ _ h

theorem digitVal_digitChar (d : Nat) (h : d < 10) : digitVal (digitChar d) = d := by
  interval_cases d <;> rfl

theorem digitChar_ne_colon (d : Nat) (h : d < 10) : digitChar d ≠ ':' := by
  interval_cases d <;> decide

theorem reprVal_natRepr (n : Nat) : reprVal (natRepr n).data = n := by
  by_cases h : n = 0
  · subst h; rfl
  · unfold natRepr
    rw [if_neg h]
    unfold reprVal
    rw [List.reverse_reverse]
    have hmap : ((natDigitsAux n n).map digitChar).map digitVal = natDigitsAux n n := by
      rw [List.map_map]
      apply List.map_congr_left ?_ |>.trans (List.map_id _)
      intro d hd
      exact digitVal_digitChar d (natDigitsAux_lt n n d hd)
    rw [hmap]
    exact natDigitsAux_fd n n le_rfl

theorem natRepr_injective {m n : Nat} (h : natRepr m = natRepr n) : m = n := by
  have hm := reprVal_natRepr m
  rw [h, reprVal_natRepr] at hm
  omega

theorem colon_not_mem_natRepr (n : Nat) : ':' ∉ (natRepr n).data := by
  unfold natRepr
  split
  · decide
  · intro hmem
    simp only [List.mem_reverse, List.mem_map] at hmem
    obtain ⟨d, hd, hc⟩ := hmem
    exact digitChar_ne_colon d (natDigitsAux_lt n n d hd) hc

theorem firstSep {α : Type} [DecidableEq α] (sep : α) :
    ∀ (as cs bs ds : List α), sep ∉ as → sep ∉ cs →
      as ++ sep :: bs = cs ++ sep :: ds → as = cs ∧ bs = ds := by
  intro as
  induction as with
  | nil =>
    intro cs bs ds _ hcs h
    cases cs with
    | nil => simpa using h
    | cons c cr =>
      simp only [List.nil_append, List.cons_append, List.cons.injEq] at h
      exact absurd (h.1 ▸ List.mem_cons_self c cr) hcs
  | cons a ar ih =>
    intro cs bs ds has hcs h
    cases cs with
    | nil =>
      simp only [List.cons_append, List.nil_append, List.cons.injEq] at h
      exact absurd (h.1 ▸ List.mem_cons_self a ar) has
    | cons c cr =>
      simp only [List.cons_append, List.cons.injEq] at h
      have has' : sep ∉ ar := fun hx => has (List.mem_cons_of_mem a hx)
      have hcs' : sep ∉ cr := fun hx => hcs (List.mem_cons_of_mem c hx)
      obtain ⟨h1, h2⟩ := ih cr bs ds has' hcs' h.2
      exact ⟨by rw [h.1, h1], h2⟩

theorem lastSep {α : Type} [DecidableEq α] (sep : α) (as cs bs ds : List α)
    (hbs : sep ∉ bs) (hds : sep ∉ ds)
    (h : as ++ sep :: bs = cs ++ sep :: ds) : as = cs ∧ bs = ds := by
  have h' : bs.reverse ++ sep :: as.reverse = ds.reverse ++ sep :: cs.reverse := by
    have hrev := congrArg List.reverse h
    simpa [List.reverse_append] using hrev
  have hbs' : sep ∉ bs.reverse := by simpa using hbs
  have hds' : sep ∉ ds.reverse := by simpa using hds
  obtain ⟨h1, h2⟩ := firstSep sep bs.reverse ds.reverse as.reverse cs.reverse hbs' hds' h'
  constructor
  · have := congrArg List.reverse h2; simpa using this
  · have := congrArg List.reverse h1; simpa using this

theorem filterPart_inj (f1 f2 : Option String)
    (h1 : validFilter f1 = true) (h2 : validFilter f2 = true)
    (h : filterPart f1 = filterPart f2) : f1 = f2 := by
  cases f1 with
  | none =>
    cases f2 with
    | none => rfl
    | some s =>
      simp only [validFilter, Bool.and_eq_true, bne_iff_ne, ne_eq] at h2
      simp only [filterPart, if_neg h2.1] at h
      exact absurd h.symm h2.2
  | some s =>
    simp only [validFilter, Bool.and_eq_true, bne_iff_ne, ne_eq] at h1
    cases f2 with
    | none =>
      simp only [filterPart, if_neg h1.1] at h
      exact absurd h h1.2
    | some t =>
      simp only [validFilter, Bool.and_eq_true, bne_iff_ne, ne_eq] at h2
      simp only [filterPart, if_neg h1.1, if_neg h2.1] at h
      rw [h]

/-! ## Claim C4: cache-key discrimination -/

/-- C4 (counterexample): the requests "no filter" and "filter named
`none`" differ in the technology-filter value yet derive the same
response-cache key, because the key format encodes an absent filter as
the literal `none`. -/
theorem respKey_collides_on_none_filter :
    respKey "X" none 5 = respKey "X" (some "none") 5 ∧
      (none : Option String) ≠ some "none" :=
  ⟨rfl, by simp⟩

/-- C4 (amended): key derivation is injective in the filter and `top_k`
provided filter names are neither empty nor the literal `"none"` (the
two values the key format conflates with "no filter"): for a fixed
query, two requests differing in such a filter value (including absent
versus a valid name) or in `top_k` derive different keys; in particular
the four keys listed in the claim are pairwise distinct. -/
theorem respKey_discriminates (q : String) (f1 f2 : Option String) (k1 k2 : Nat)
    (h1 : validFilter f1 = true) (h2 : validFilter f2 = true)
    (hne : f1 ≠ f2 ∨ k1 ≠ k2) :
    respKey q f1 k1 ≠ respKey q f2 k2 := by
  intro h
  have hd := congrArg String.data h
  simp only [respKey, hashQuery, String.data_append, List.append_assoc] at hd
  have hd1 := List.append_cancel_left (List.append_cancel_left (List.append_cancel_left hd))
  simp only [List.cons_append, List.nil_append] at hd1
  obtain ⟨hf, hn⟩ := lastSep ':' (filterPart f1).data (filterPart f2).data
    (natRepr k1).data (natRepr k2).data (colon_not_mem_natRepr k1)
    (colon_not_mem_natRepr k2) hd1
  rcases hne with hne | hne
  · exact hne (filterPart_inj f1 f2 h1 h2 (String.ext hf))
  · exact hne (natRepr_injective (String.ext hn))

theorem respKey_discriminates_witness :
    respKey "X" (some "React Docs") 10 ≠ respKey "X" (some "React Docs") 5 :=
  respKey_discriminates "X" (some "React Docs") (some "React Docs") 10 5
    (by decide) (by decide) (Or.inr (by decide))

/-! ## Claim C3: adaptive TTL rule -/

/-- C3 (counterexample): with base TTL 1 and a recorded access count of
5, `_get_adaptive_ttl` returns `int(1 * 1.5) = 1`, not `1.5 * 1`. -/
theorem adaptive_ttl_truncation_counterexample :
    getAdaptiveTTL fiveAccessState 1 "k" = 1 ∧
      ((getAdaptiveTTL fiveAccessState 1 "k" : ℚ) ≠ (3 / 2 : ℚ) * 1) := by
  have h1 : getAdaptiveTTL fiveAccessState 1 "k" = 1 := by with_unfolding_all rfl
  refine ⟨h1, ?_⟩
  rw [h1]
  norm_num

/-- C3 (amended): the adaptive TTL equals `b * 2` when the recorded
access count is at least 10, `⌊1.5 · b⌋ = b * 3 / 2` in integer division
(the code truncates `int(base_ttl * 1.5)`) when the count is between 5
and 9 inclusive, and `b` when the count is below 5 or absent; when
adaptive TTL is disabled, or the store is disabled or unreachable (the
lookup raises and is caught), the result falls back to `b`. -/
theorem adaptive_ttl_rule (st : CacheState) (b : Nat) (key : String) :
    (st.enable_adaptive_ttl = false → getAdaptiveTTL st b key = b) ∧
      (st.backend = .disabled ∨ st.backend = .unreachable → getAdaptiveTTL st b key = b) ∧
      (∀ kv, st.backend = .healthy kv → st.enable_adaptive_ttl = true →
        (countLookup st.accessCounts ("access_count:" ++ key) = none →
          getAdaptiveTTL st b key = b) ∧
        (∀ c, countLookup st.accessCounts ("access_count:" ++ key) = some c →
          (10 ≤ c → getAdaptiveTTL st b key = b * 2) ∧
          (5 ≤ c → c < 10 → getAdaptiveTTL st b key = b * 3 / 2) ∧
          (c < 5 → getAdaptiveTTL st b key = b))) := by
  refine ⟨?_, ?_, ?_⟩
  · intro h; simp [getAdaptiveTTL, h]
  · intro h
    rcases h with h | h <;> simp [getAdaptiveTTL, isCacheAvailable, h]
  · intro kv hb he
    constructor
    · intro hc; simp [getAdaptiveTTL, isCacheAvailable, hb, he, hc]
    · intro c hc
      have hgoal : getAdaptiveTTL st b key
          = (if 10 ≤ c then b * 2 else if 5 ≤ c then b * 3 / 2 else b) := by
        simp [getAdaptiveTTL, isCacheAvailable, hb, he, hc]
      refine ⟨?_, ?_, ?_⟩
      · intro h10; rw [hgoal, if_pos h10]
      · intro h5 h10; rw [hgoal, if_neg (by omega), if_pos h5]
      · intro h5; rw [hgoal, if_neg (by omega), if_neg (by omega)]

theorem adaptive_ttl_rule_witness :
    getAdaptiveTTL fiveAccessState 7 "k" = 7 * 3 / 2 :=
  (((adaptive_ttl_rule fiveAccessState 7 "k").2.2 [] rfl rfl).2 5
    (by with_unfolding_all rfl)).2.1 (by omega) (by omega)

/-! ## Claim C5: degradation without raising -/

/-- C5: when the backend is disabled at construction or connections
break during operations, every get at every level returns absent, every
put leaves the store contents (backend) and the access counters
untouched and returns normally — in the disabled case the state is
untouched entirely — and, the modelled operations being total functions
that absorb the backend's error branch, no cache-layer failure reaches
the caller. -/
theorem cache_degrades_to_noop (st : CacheState) (q : String) (e v : PyObj)
    (res : MPVal) (tf : Option String) (tk : Nat)
    (h : st.backend = .disabled ∨ st.backend = .unreachable) :
    (getCachedEmbedding st q).2 = none ∧
      (getCachedRetrieval st e tf).2 = none ∧
      (getCachedResponse st q tf tk).2 = none ∧
      (cacheEmbedding st q v).backend = st.backend ∧
      (cacheRetrieval st e v tf).backend = st.backend ∧
      (cacheResponse st q res tf tk).backend = st.backend ∧
      (cacheEmbedding st q v).accessCounts = st.accessCounts ∧
      (cacheRetrieval st e v tf).accessCounts = st.accessCounts ∧
      (cacheResponse st q res tf tk).accessCounts = st.accessCounts ∧
      (st.backend = .disabled →
        cacheEmbedding st q v = st ∧ cacheRetrieval st e v tf = st ∧
          cacheResponse st q res tf tk = st ∧ (getCachedEmbedding st q).1 = st ∧
          (getCachedRetrieval st e tf).1 = st ∧ (getCachedResponse st q tf tk).1 = st) := by
  rcases h with h | h
  · simp [getCachedEmbedding, getCachedRetrieval, getCachedResponse, cacheEmbedding,
      cacheRetrieval, cacheResponse, isCacheAvailable, h]
  · simp [getCachedEmbedding, getCachedRetrieval, getCachedResponse, cacheEmbedding,
      cacheRetrieval, cacheResponse, isCacheAvailable, redisGet, redisSetex, bumpStat, h]

theorem cache_degrades_to_noop_witness :
    (getCachedEmbedding disabledState "q").2 = none ∧
      (getCachedEmbedding unreachableState "q").2 = none :=
  ⟨(cache_degrades_to_noop disabledState "q" smallVal smallVal (.vmap []) none 5
      (Or.inl rfl)).1,
   (cache_degrades_to_noop unreachableState "q" smallVal smallVal (.vmap []) none 5
      (Or.inr rfl)).1⟩

/-! ## Claim C7: statistics accounting -/

/-- C7 (code evaluation at the failing input): the cache holds, under
the embedding key for query `"q"`, the payload `b'\x00'` (flag byte 0,
empty body), whose decode fails.  The single get returns absent but
increments BOTH the hit counter (incremented before decoding) and the
miss counter (incremented by the exception handler), so after `N = 1`
gets with `H = 0` successful hits the reported total is 2, not 1 — not
"exactly one" counter per get. -/
theorem stats_double_count_on_decode_failure :
    (getCachedEmbedding corruptPayloadState "q").2 = none ∧
      (getCachedEmbedding corruptPayloadState "q").1.stats.embedding_hits = 1 ∧
      (getCachedEmbedding corruptPayloadState "q").1.stats.embedding_misses = 1 ∧
      (embeddingCacheStats (getCachedEmbedding corruptPayloadState "q").1).total = 2 :=
  ⟨by with_unfolding_all rfl, by with_unfolding_all rfl, by with_unfolding_all rfl,
   by with_unfolding_all rfl⟩

/-! ## Claim C2: compression flag on stored payloads -/

/-- C2 (counterexample): a response-level put stores the raw JSON text —
for the response `{}` the stored payload starts with the byte 123
(`"{"`), not a 0/1 compression-flag byte. -/
theorem response_put_lacks_flag_byte :
    (cacheResponse emptyHealthyState "X" (.vmap []) none 5).backend =
        .healthy [(respKey "X" none 5, (jsonBytes (.vmap []), 86400))] ∧
      (jsonBytes (.vmap [])).head? = some 123 ∧
      (jsonBytes (.vmap [])).head? ≠ some 0 ∧
      (jsonBytes (.vmap [])).head? ≠ some 1 :=
  ⟨by with_unfolding_all rfl, by with_unfolding_all rfl,
   by with_unfolding_all decide, by with_unfolding_all decide⟩

theorem getAdaptiveTTL_bumpStat (st : CacheState) (f : CacheStats → CacheStats)
    (b : Nat) (k : String) :
    getAdaptiveTTL (bumpStat st f) b k = getAdaptiveTTL st b k := rfl

theorem compressBytes_eq (t : Nat) (s : List Nat) :
    compressBytes t s
      = if t < s.length then
          (if (lz4Compress s).length < s.length then (lz4Compress s, true) else (s, false))
        else (s, false) := rfl

theorem encodeStored_eq (t : Nat) (v : PyObj) :
    encodeStored t v
      = (if (compressBytes t (mpEncode (serializeVal v))).2 then 1 else 0)
          :: (compressBytes t (mpEncode (serializeVal v))).1 := rfl

/-- C2 (amended): at the embedding and retrieval levels every stored
payload is `flag :: body`, with flag 1 and the compressed body exactly
when the serialized value exceeds the size threshold and the compressed
form is strictly smaller, and flag 0 with the raw serialized bytes
otherwise, and the decode path dispatches on the flag to recover the
original value; the response level, contrary to the claim, stores the
JSON text of the response with no flag byte. -/
theorem cache_put_compression_flag (st : CacheState) (kv : KVStore) (q : String)
    (v r e : PyObj) (res : MPVal) (tf : Option String) (tk : Nat)
    (hb : st.backend = .healthy kv) (hv : numpyTagged v = false) :
    (cacheEmbedding st q v).backend =
        .healthy (kvSet kv (embKey q)
          (encodeStored st.compression_threshold v,
            getAdaptiveTTL st st.embedding_ttl (embKey q))) ∧
      (cacheRetrieval st e r tf).backend =
        .healthy (kvSet kv (retKey e tf)
          (encodeStored st.compression_threshold r,
            getAdaptiveTTL st st.retrieval_ttl (retKey e tf))) ∧
      (st.compression_threshold < (mpEncode (serializeVal v)).length ∧
          (lz4Compress (mpEncode (serializeVal v))).length
            < (mpEncode (serializeVal v)).length →
        encodeStored st.compression_threshold v
          = 1 :: lz4Compress (mpEncode (serializeVal v))) ∧
      (¬(st.compression_threshold < (mpEncode (serializeVal v)).length ∧
          (lz4Compress (mpEncode (serializeVal v))).length
            < (mpEncode (serializeVal v)).length) →
        encodeStored st.compression_threshold v = 0 :: mpEncode (serializeVal v)) ∧
      decodeStored (encodeStored st.compression_threshold v) = some v ∧
      (cacheResponse st q res tf tk).backend =
        .healthy (kvSet kv (respKey q tf tk)
          (jsonBytes res, getAdaptiveTTL st st.response_ttl (respKey q tf tk))) := by
  obtain ⟨bk, ac, sts, th, en, t1, t2, t3⟩ := st
  change bk = Backend.healthy kv at hb
  subst hb
  refine ⟨rfl, rfl, ?_, ?_, decodeStored_encodeStored _ v hv, rfl⟩
  · intro hc
    rw [encodeStored_eq, compressBytes_eq, if_pos hc.1, if_pos hc.2]
    rfl
  · intro hc
    rw [encodeStored_eq, compressBytes_eq]
    by_cases h1 : th < (mpEncode (serializeVal v)).length
    · rw [if_pos h1, if_neg (fun h2 => hc ⟨h1, h2⟩)]
      rfl
    · rw [if_neg h1]
      rfl

theorem cache_put_compression_flag_witness :
    (cacheEmbedding emptyHealthyState "X" smallVal).backend =
      .healthy (kvSet [] (embKey "X")
        (encodeStored emptyHealthyState.compression_threshold smallVal,
          getAdaptiveTTL emptyHealthyState emptyHealthyState.embedding_ttl (embKey "X"))) :=
  (cache_put_compression_flag emptyHealthyState [] "X" smallVal smallVal smallVal
    (.vmap []) none 5 rfl (by with_unfolding_all rfl)).1

/-! ## Lemmas: the fusion passes only touch store addresses at or above
the allocation point (claims C10, C8, C1) -/

theorem storeGet_eq_getElem? (s : Store) (a : Nat) : storeGet s a = (s[a]?).getD [] := by
  simp [storeGet, List.getD_eq_getElem?_getD]

theorem storeSet_getElem?_ne (s : Store) (a : Nat) (key : String) (v : DVal) (i : Nat)
    (h : a ≠ i) : (storeSet s a key v)[i]? = s[i]? := by
  simp [storeSet, List.getElem?_set_ne h]

theorem storeSet_length (s : Store) (a : Nat) (key : String) (v : DVal) :
    (storeSet s a key v).length = s.length := by
  simp [storeSet]

theorem ddFind_mem (dd : DocData) (c : String) (addr : Nat)
    (h : ddFind dd c = some addr) : ∃ p ∈ dd, p.2 = addr := by
  unfold ddFind at h
  rcases Option.map_eq_some'.mp h with ⟨p, hp, hpe⟩
  exact ⟨p, List.mem_of_find?_eq_some hp, hpe⟩

theorem semPass_inv (k : Nat) (w : ℚ) (n : Nat) :
    ∀ (addrs : List Nat) (rank : Nat) (store : Store) (scores : Scores) (dd : DocData),
      n ≤ store.length → (∀ p ∈ dd, n ≤ p.2) →
      ((∀ i, i < n → (semPass k w addrs rank store scores dd).1[i]? = store[i]?) ∧
        n ≤ (semPass k w addrs rank store scores dd).1.length ∧
        (∀ p ∈ (semPass k w addrs rank store scores dd).2.2, n ≤ p.2)) := by
  intro addrs
  induction addrs with
  | nil =>
    intro rank store scores dd hn hdd
    exact ⟨fun i _ => rfl, hn, hdd⟩
  | cons a rest ih =>
    intro rank store scores dd hn hdd
    cases hfind : ddFind dd (contentKey (storeGet store a)) with
    | some addr =>
      simp only [semPass, hfind]
      exact ih (rank + 1) store _ dd hn hdd
    | none =>
      simp only [semPass, hfind]
      have hdd' : ∀ p ∈ dd ++ [(contentKey (storeGet store a), store.length)], n ≤ p.2 := by
        intro p hp
        rcases List.mem_append.mp hp with hp | hp
        · exact hdd p hp
        · have hpe : p = (contentKey (storeGet store a), store.length) := by simpa using hp
          rw [hpe]; exact hn
      have H := fun (cp : Dict) (sc : Scores) =>
        ih (rank + 1) (store ++ [cp]) sc
          (dd ++ [(contentKey (storeGet store a), store.length)])
          (by simp; omega) hdd'
      exact ⟨fun i hi => ((H _ _).1 i hi).trans
          (List.getElem?_append_left (lt_of_lt_of_le hi hn)),
        (H _ _).2.1, (H _ _).2.2⟩

theorem keyPass_inv (k : Nat) (w : ℚ) (n : Nat) :
    ∀ (addrs : List Nat) (rank : Nat) (store : Store) (scores : Scores) (dd : DocData),
      n ≤ store.length → (∀ p ∈ dd, n ≤ p.2) →
      ((∀ i, i < n → (keyPass k w addrs rank store scores dd).1[i]? = store[i]?) ∧
        n ≤ (keyPass k w addrs rank store scores dd).1.length ∧
        (∀ p ∈ (keyPass k w addrs rank store scores dd).2.2, n ≤ p.2)) := by
  intro addrs
  induction addrs with
  | nil =>
    intro rank store scores dd hn hdd
    exact ⟨fun i _ => rfl, hn, hdd⟩
  | cons a rest ih =>
    intro rank store scores dd hn hdd
    cases hfind : ddFind dd (contentKey (storeGet store a)) with
    | some addr =>
      simp only [keyPass, hfind]
      obtain ⟨p, hp, hpe⟩ := ddFind_mem dd _ addr hfind
      have haddr : n ≤ addr := hpe ▸ hdd p hp
      have H := fun (sc : Scores) =>
        ih (rank + 1)
          (storeSet (storeSet store addr "keyword_rank" (.num (rank : ℚ)))
            addr "bm25_score" (bmScoreVal (storeGet store a))) sc dd
          (by rw [storeSet_length, storeSet_length]; exact hn) hdd
      refine ⟨fun i hi => ((H _).1 i hi).trans ?_, (H _).2.1, (H _).2.2⟩
      rw [storeSet_getElem?_ne _ _ _ _ _ (by omega),
        storeSet_getElem?_ne _ _ _ _ _ (by omega)]
    | none =>
      simp only [keyPass, hfind]
      have hdd' : ∀ p ∈ dd ++ [(contentKey (storeGet store a), store.length)], n ≤ p.2 := by
        intro p hp
        rcases List.mem_append.mp hp with hp | hp
        · exact hdd p hp
        · have hpe : p = (contentKey (storeGet store a), store.length) := by simpa using hp
          rw [hpe]; exact hn
      have H := fun (cp : Dict) (sc : Scores) =>
        ih (rank + 1) (store ++ [cp]) sc
          (dd ++ [(contentKey (storeGet store a), store.length)])
          (by simp; omega) hdd'
      exact ⟨fun i hi => ((H _ _).1 i hi).trans
          (List.getElem?_append_left (lt_of_lt_of_le hi hn)),
        (H _ _).2.1, (H _ _).2.2⟩

theorem finalize_inv (n : Nat) (dd : DocData) (hdd : ∀ p ∈ dd, n ≤ p.2) :
    ∀ (entries : List (String × ℚ)) (store : Store), n ≤ store.length →
      ((∀ i, i < n → (finalize store dd entries).1[i]? = store[i]?) ∧
        n ≤ (finalize store dd entries).1.length ∧
        (∀ a ∈ (finalize store dd entries).2, n ≤ a)) := by
  intro entries
  induction entries with
  | nil =>
    intro store hn
    exact ⟨fun i _ => rfl, hn, by simp [finalize]⟩
  | cons entry rest ih =>
    intro store hn
    obtain ⟨ckey, score⟩ := entry
    cases hfind : ddFind dd ckey with
    | none =>
      simp only [finalize, hfind]
      exact ih store hn
    | some addr =>
      simp only [finalize, hfind]
      obtain ⟨p, hp, hpe⟩ := ddFind_mem dd ckey addr hfind
      have haddr : n ≤ addr := hpe ▸ hdd p hp
      have H := fun (d : Dict) =>
        ih (store.set addr d) (by rw [List.length_set]; exact hn)
      refine ⟨fun i hi => ((H _).1 i hi).trans (List.getElem?_set_ne (by omega)),
        (H _).2.1, ?_⟩
      intro b hb
      rcases List.mem_cons.mp hb with hb | hb
      · omega
      · exact (H _).2.2 b hb

/-! ## Claim C10: fuse does not mutate its inputs -/

/-- C10: every store address that exists before `fuse` runs still holds
the same dictionary afterwards — the input result lists and every
dictionary they reference are unchanged — and every record `fuse`
returns lives at a freshly allocated address (a copy), so the added
fields (`rrf_score`, `appeared_in`, ranks, scores) appear only on the
returned records. -/
theorem fuse_preserves_inputs (store : Store) (semA keyA : List Nat) (k : Nat)
    (sw kw : ℚ) :
    (∀ i, i < store.length → (fuse store semA keyA k sw kw).1[i]? = store[i]?) ∧
      ∀ a ∈ (fuse store semA keyA k sw kw).2, store.length ≤ a := by
  set w := normWeights sw kw with hw
  set s1 := semPass k w.1 semA 1 store [] [] with hs1
  set s2 := keyPass k w.2 keyA 1 s1.1 s1.2.1 s1.2.2 with hs2
  have hfuse : fuse store semA keyA k sw kw = finalize s2.1 s2.2.2 (sortDesc s2.2.1) := rfl
  obtain ⟨h1, h2, h3⟩ := semPass_inv k w.1 store.length semA 1 store [] [] le_rfl (by simp)
  obtain ⟨g1, g2, g3⟩ := keyPass_inv k w.2 store.length keyA 1 s1.1 s1.2.1 s1.2.2 h2 h3
  obtain ⟨f1, f2, f3⟩ := finalize_inv store.length s2.2.2 g3 (sortDesc s2.2.1) s2.1 g2
  rw [hfuse]
  exact ⟨fun i hi => (f1 i hi).trans ((g1 i hi).trans (h1 i hi)), f3⟩

theorem fuse_preserves_inputs_witness :
    (fuse storeEx [0, 1] [2, 3] 60 (6/10) (4/10)).1[0]? = storeEx[0]? :=
  (fuse_preserves_inputs storeEx [0, 1] [2, 3] 60 (6/10) (4/10)).1 0
    (by with_unfolding_all decide)

/-! ## Claim C9: keyword search failure modes -/

/-- C9: searching before a successful index build or load fails fast
with the explicit "index not loaded" error — an outcome distinct from an
empty result list — whereas a query whose tokenization yields no tokens
is not an error and returns the empty result list. -/
theorem search_index_not_ready_vs_empty_tokens (st : BM25Indexer) (q : String)
    (tk : Nat) (tf : Option String) :
    (st.bm25_index = none →
      st.search q tk tf
        = .error "BM25 index not loaded. Call build_index() or load_index() first.") ∧
      (∀ corpus, st.bm25_index = some corpus → tokenize q = [] →
        st.search q tk tf = .ok []) ∧
      BM25Indexer.init.search q tk tf ≠ .ok [] := by
  refine ⟨?_, ?_, ?_⟩
  · intro h; simp [BM25Indexer.search, h]
  · intro corpus h ht; simp [BM25Indexer.search, h, ht]
  · intro hcontra
    rw [show BM25Indexer.init.search q tk tf
        = .error "BM25 index not loaded. Call build_index() or load_index() first."
      from rfl] at hcontra
    exact Except.noConfusion hcontra

theorem search_index_not_ready_vs_empty_tokens_witness :
    BM25Indexer.init.search "React hooks" 5 none
        = .error "BM25 index not loaded. Call build_index() or load_index() first." ∧
      (BM25Indexer.buildIndex ["a document"] [[]] ["id1"]).search "a b" 5 none = .ok [] :=
  ⟨(search_index_not_ready_vs_empty_tokens BM25Indexer.init "React hooks" 5 none).1 rfl,
   (search_index_not_ready_vs_empty_tokens
      (BM25Indexer.buildIndex ["a document"] [[]] ["id1"]) "a b" 5 none).2.1
      (["a document"].map tokenize) rfl (by with_unfolding_all rfl)⟩

/-! ## Lemmas: score accumulation (claim C8) -/

theorem slookup_nil (c : String) : slookup [] c = none := rfl

theorem bump_nil (c : String) (x : ℚ) : bump [] c x = [(c, x)] := rfl

theorem bump_cons_eq (p : String × ℚ) (r : Scores) (c : String) (x : ℚ)
    (hp : (p.1 == c) = true) :
    bump (p :: r) c x
      = (p.1, p.2 + x) :: r.map (fun q => if q.1 == c then (q.1, q.2 + x) else q) := by
  unfold bump
  have hfind : (p :: r).find? (fun q => q.1 == c) = some p :=
    List.find?_cons_of_pos _ hp
  rw [hfind]
  simp only [Option.isSome_some, if_true, List.map_cons, hp, Bool.true_eq_false]

theorem bump_cons_ne (p : String × ℚ) (r : Scores) (c : String) (x : ℚ)
    (hp : (p.1 == c) = false) :
    bump (p :: r) c x = p :: bump r c x := by
  unfold bump
  have hfind : (p :: r).find? (fun q => q.1 == c) = r.find? (fun q => q.1 == c) :=
    List.find?_cons_of_neg _ (by simp [hp])
  rw [hfind]
  cases hfr : r.find? (fun q => q.1 == c) with
  | some q =>
    simp only [Option.isSome_some, if_true, List.map_cons]
    congr 1
    simp only [hp, Bool.false_eq_true, if_false]
  | none =>
    simp only [Option.isSome_none, Bool.false_eq_true, if_false, List.cons_append]

theorem slookup_map_other (c c' : String) (x : ℚ) (h : c' ≠ c) : ∀ (r : Scores),
    slookup (r.map (fun q => if q.1 == c then (q.1, q.2 + x) else q)) c' = slookup r c' := by
  intro r
  induction r with
  | nil => rfl
  | cons q t ih =>
    cases hq : (q.1 == c) with
    | true =>
      have hqc : q.1 = c := by simpa using hq
      have hne : (q.1 == c') = false := by
        rw [hqc]; exact beq_eq_false_iff_ne.mpr (Ne.symm h)
      rw [List.map_cons]
      rw [show (if q.1 == c then (q.1, q.2 + x) else q) = (q.1, q.2 + x) by simp [hq]]
      rw [slookup, slookup, hne]
      simpa [hne] using ih
    | false =>
      rw [List.map_cons]
      rw [show (if q.1 == c then (q.1, q.2 + x) else q) = q by simp [hq]]
      rw [slookup, slookup]
      cases hq' : (q.1 == c') with
      | true => simp [hq']
      | false => simpa [hq'] using ih

theorem slookup_bump_self (c : String) (x : ℚ) : ∀ (s : Scores),
    slookup (bump s c x) c = some ((slookup s c).getD 0 + x) := by
  intro s
  induction s with
  | nil =>
    rw [bump_nil, slookup_nil, slookup]
    simp
  | cons p r ih =>
    cases hp : (p.1 == c) with
    | true =>
      rw [bump_cons_eq p r c x hp, slookup, slookup, hp]
      simp
    | false =>
      rw [bump_cons_ne p r c x hp, slookup, slookup, hp]
      simpa [hp] using ih

theorem slookup_bump_other (s : Scores) (c c' : String) (x : ℚ) (h : c' ≠ c) :
    slookup (bump s c x) c' = slookup s c' := by
  induction s with
  | nil =>
    have hne : (c == c') = false := beq_eq_false_iff_ne.mpr (Ne.symm h)
    simp [bump_nil, slookup, hne]
  | cons p r ih =>
    cases hp : (p.1 == c) with
    | true =>
      have hpc : p.1 = c := by simpa using hp
      have hne : (p.1 == c') = false := by
        rw [hpc]; exact beq_eq_false_iff_ne.mpr (Ne.symm h)
      rw [bump_cons_eq p r c x hp, slookup, slookup, hne]
      simp only [hne, Bool.false_eq_true, if_false]
      exact slookup_map_other c c' x h r
    | false =>
      rw [bump_cons_ne p r c x hp, slookup, slookup]
      cases hp' : (p.1 == c') with
      | true => simp [hp']
      | false => simpa [hp'] using ih

theorem slookup_scorePass_of_not_mem (k : Nat) (w : ℚ) (c : String) :
    ∀ (contents : List String) (rank : Nat) (s : Scores), c ∉ contents →
      slookup (scorePass k w contents rank s) c = slookup s c := by
  intro contents
  induction contents with
  | nil => intro rank s _; rfl
  | cons d rest ih =>
    intro rank s hc
    rw [scorePass]
    have hcd : c ≠ d := fun h => hc (h ▸ List.mem_cons_self d rest)
    rw [ih (rank + 1) _ (fun h => hc (List.mem_cons_of_mem d h))]
    exact slookup_bump_other s d c _ hcd

theorem slookup_scorePass_once (k : Nat) (w : ℚ) (c : String) :
    ∀ (pre post : List String) (rank : Nat) (s : Scores), c ∉ pre → c ∉ post →
      slookup (scorePass k w (pre ++ c :: post) rank s) c
        = some ((slookup s c).getD 0 + w * (1 / ((k : ℚ) + rank + pre.length))) := by
  intro pre
  induction pre with
  | nil =>
    intro post rank s _ hpost
    rw [List.nil_append, scorePass,
      slookup_scorePass_of_not_mem k w c post (rank + 1) _ hpost,
      slookup_bump_self]
    congr 2
    simp
  | cons d pr ih =>
    intro post rank s hpre hpost
    have hcd : c ≠ d := fun h => hpre (h ▸ List.mem_cons_self d pr)
    have hcpr : c ∉ pr := fun h => hpre (List.mem_cons_of_mem d h)
    rw [List.cons_append, scorePass, ih post (rank + 1) _ hcpr hpost,
      slookup_bump_other s d c _ hcd]
    congr 2
    simp only [List.length_cons]
    push_cast
    ring

/-! ## Lemmas: the scores component of the passes is the pure
accumulation over the content lists -/

theorem storeGet_append_left (store : Store) (cp : Dict) (b : Nat)
    (hb : b < store.length) : storeGet (store ++ [cp]) b = storeGet store b := by
  rw [storeGet_eq_getElem?, storeGet_eq_getElem?, List.getElem?_append_left hb]

theorem storeGet_storeSet_ne (store : Store) (a : Nat) (key : String) (v : DVal)
    (b : Nat) (h : a ≠ b) : storeGet (storeSet store a key v) b = storeGet store b := by
  rw [storeGet_eq_getElem?, storeGet_eq_getElem?, storeSet_getElem?_ne _ _ _ _ _ h]

theorem semPass_scores (k : Nat) (w : ℚ) (n : Nat) :
    ∀ (addrs : List Nat) (rank : Nat) (store : Store) (scores : Scores) (dd : DocData),
      (∀ a ∈ addrs, a < n) → n ≤ store.length → (∀ p ∈ dd, n ≤ p.2) →
      (semPass k w addrs rank store scores dd).2.1
        = scorePass k w (addrs.map (fun a => contentKey (storeGet store a))) rank scores := by
  intro addrs
  induction addrs with
  | nil => intro rank store scores dd _ _ _; rfl
  | cons a rest ih =>
    intro rank store scores dd hv hn hdd
    have hvr : ∀ b ∈ rest, b < n := fun b hb => hv b (List.mem_cons_of_mem a hb)
    rw [List.map_cons, scorePass]
    cases hfind : ddFind dd (contentKey (storeGet store a)) with
    | some addr =>
      simp only [semPass, hfind]
      exact ih (rank + 1) store _ dd hvr hn hdd
    | none =>
      simp only [semPass, hfind]
      have hdd' : ∀ p ∈ dd ++ [(contentKey (storeGet store a), store.length)], n ≤ p.2 := by
        intro p hp
        rcases List.mem_append.mp hp with hp | hp
        · exact hdd p hp
        · have hpe : p = (contentKey (storeGet store a), store.length) := by simpa using hp
          rw [hpe]; exact hn
      rw [ih (rank + 1)
        (store ++ [dset (dset (storeGet store a) "semantic_rank" (.num (rank : ℚ)))
          "semantic_score" (semScoreVal (storeGet store a))])
        (bump scores (contentKey (storeGet store a)) (w * (1 / ((k : ℚ) + rank))))
        (dd ++ [(contentKey (storeGet store a), store.length)])
        hvr (by simp; omega) hdd']
      congr 1
      apply List.map_congr_left
      intro b hb
      rw [storeGet_append_left store _ b (lt_of_lt_of_le (hvr b hb) hn)]

theorem keyPass_scores (k : Nat) (w : ℚ) (n : Nat) :
    ∀ (addrs : List Nat) (rank : Nat) (store : Store) (scores : Scores) (dd : DocData),
      (∀ a ∈ addrs, a < n) → n ≤ store.length → (∀ p ∈ dd, n ≤ p.2) →
      (keyPass k w addrs rank store scores dd).2.1
        = scorePass k w (addrs.map (fun a => contentKey (storeGet store a))) rank scores := by
  intro addrs
  induction addrs with
  | nil => intro rank store scores dd _ _ _; rfl
  | cons a rest ih =>
    intro rank store scores dd hv hn hdd
    have hvr : ∀ b ∈ rest, b < n := fun b hb => hv b (List.mem_cons_of_mem a hb)
    rw [List.map_cons, scorePass]
    cases hfind : ddFind dd (contentKey (storeGet store a)) with
    | some addr =>
      simp only [keyPass, hfind]
      obtain ⟨p, hp, hpe⟩ := ddFind_mem dd _ addr hfind
      have haddr : n ≤ addr := hpe ▸ hdd p hp
      rw [ih (rank + 1)
        (storeSet (storeSet store addr "keyword_rank" (.num (rank : ℚ)))
          addr "bm25_score" (bmScoreVal (storeGet store a)))
        (bump scores (contentKey (storeGet store a)) (w * (1 / ((k : ℚ) + rank))))
        dd hvr (by rw [storeSet_length, storeSet_length]; exact hn) hdd]
      congr 1
      apply List.map_congr_left
      intro b hb
      rw [storeGet_storeSet_ne _ _ _ _ b (by have := hvr b hb; omega),
        storeGet_storeSet_ne _ _ _ _ b (by have := hvr b hb; omega)]
    | none =>
      simp only [keyPass, hfind]
      have hdd' : ∀ p ∈ dd ++ [(contentKey (storeGet store a), store.length)], n ≤ p.2 := by
        intro p hp
        rcases List.mem_append.mp hp with hp | hp
        · exact hdd p hp
        · have hpe : p = (contentKey (storeGet store a), store.length) := by simpa using hp
          rw [hpe]; exact hn
      rw [ih (rank + 1)
        (store ++ [dset (dset (storeGet store a) "keyword_rank" (.num (rank : ℚ)))
          "bm25_score" (bmScoreVal (storeGet store a))])
        (bump scores (contentKey (storeGet store a)) (w * (1 / ((k : ℚ) + rank))))
        (dd ++ [(contentKey (storeGet store a), store.length)])
        hvr (by simp; omega) hdd']
      congr 1
      apply List.map_congr_left
      intro b hb
      rw [storeGet_append_left store _ b (lt_of_lt_of_le (hvr b hb) hn)]

theorem fuseScores_eq (store : Store) (semA keyA : List Nat) (k : Nat) (sw kw : ℚ)
    (hsem : ∀ a ∈ semA, a < store.length) (hkey : ∀ a ∈ keyA, a < store.length) :
    fuseScores store semA keyA k sw kw
      = scorePass k (normWeights sw kw).2
          (keyA.map (fun a => contentKey (storeGet store a))) 1
          (scorePass k (normWeights sw kw).1
            (semA.map (fun a => contentKey (storeGet store a))) 1 []) := by
  set w := normWeights sw kw with hw
  set s1 := semPass k w.1 semA 1 store [] [] with hs1
  have hfe : fuseScores store semA keyA k sw kw
      = (keyPass k w.2 keyA 1 s1.1 s1.2.1 s1.2.2).2.1 := rfl
  obtain ⟨h1, h2, h3⟩ := semPass_inv k w.1 store.length semA 1 store [] [] le_rfl (by simp)
  have hss : s1.2.1
      = scorePass k w.1 (semA.map (fun a => contentKey (storeGet store a))) 1 [] := by
    rw [hs1]
    exact semPass_scores k w.1 store.length semA 1 store [] [] hsem le_rfl (by simp)
  have hks : (keyPass k w.2 keyA 1 s1.1 s1.2.1 s1.2.2).2.1
      = scorePass k w.2 (keyA.map (fun a => contentKey (storeGet s1.1 a))) 1 s1.2.1 :=
    keyPass_scores k w.2 store.length keyA 1 s1.1 s1.2.1 s1.2.2 hkey h2 h3
  rw [hfe, hks, hss]
  congr 1
  apply List.map_congr_left
  intro b hb
  rw [storeGet_eq_getElem?, storeGet_eq_getElem?, h1 b (hkey b hb)]

theorem normWeights_eq (sw kw : ℚ) :
    normWeights sw kw
      = if 0 < sw + kw then (sw / (sw + kw), kw / (sw + kw)) else (1/2, 1/2) := rfl

theorem normWeights_nonneg (sw kw : ℚ) (hs : 0 ≤ sw) (hk : 0 ≤ kw) :
    0 ≤ (normWeights sw kw).1 ∧ 0 ≤ (normWeights sw kw).2 := by
  rw [normWeights_eq]
  split
  · constructor
    · exact div_nonneg hs (by linarith)
    · exact div_nonneg hk (by linarith)
  · norm_num

/-! ## Claim C8: accumulation across both lists -/

/-- C8: when a content `c` appears (once) at rank `p1.length + 1` in the
semantic list and at rank `p2.length + 1` in the keyword list, its
accumulated score is the single sum of both lists' contributions; with
the same semantic list and any keyword list not containing `c` ("all
else equal"), its score is the semantic contribution alone, which the
two-list score always dominates (equality possible only for a zero
normalized keyword weight). -/
theorem fuse_accumulates_both_lists (store : Store) (semA keyA keyA' : List Nat)
    (k : Nat) (sw kw : ℚ) (hsw : 0 ≤ sw) (hkw : 0 ≤ kw)
    (hsem : ∀ a ∈ semA, a < store.length)
    (hkey : ∀ a ∈ keyA, a < store.length)
    (hkey' : ∀ a ∈ keyA', a < store.length)
    (c : String) (p1 s1 p2 s2 : List String)
    (hS : semA.map (fun a => contentKey (storeGet store a)) = p1 ++ c :: s1)
    (hp1 : c ∉ p1) (hs1 : c ∉ s1)
    (hK : keyA.map (fun a => contentKey (storeGet store a)) = p2 ++ c :: s2)
    (hp2 : c ∉ p2) (hs2 : c ∉ s2)
    (hK' : c ∉ keyA'.map (fun a => contentKey (storeGet store a))) :
    slookup (fuseScores store semA keyA k sw kw) c
        = some ((normWeights sw kw).1 * (1 / ((k : ℚ) + 1 + p1.length))
            + (normWeights sw kw).2 * (1 / ((k : ℚ) + 1 + p2.length))) ∧
      slookup (fuseScores store semA keyA' k sw kw) c
        = some ((normWeights sw kw).1 * (1 / ((k : ℚ) + 1 + p1.length))) ∧
      (normWeights sw kw).1 * (1 / ((k : ℚ) + 1 + p1.length))
        ≤ (normWeights sw kw).1 * (1 / ((k : ℚ) + 1 + p1.length))
          + (normWeights sw kw).2 * (1 / ((k : ℚ) + 1 + p2.length)) := by
  have hsemval : slookup (scorePass k (normWeights sw kw).1
      (semA.map (fun a => contentKey (storeGet store a))) 1 []) c
      = some ((normWeights sw kw).1 * (1 / ((k : ℚ) + 1 + p1.length))) := by
    rw [hS, slookup_scorePass_once k _ c p1 s1 1 [] hp1 hs1]
    simp [slookup_nil]
  refine ⟨?_, ?_, ?_⟩
  · rw [fuseScores_eq store semA keyA k sw kw hsem hkey, hK,
      slookup_scorePass_once k _ c p2 s2 1 _ hp2 hs2, hsemval]
    simp
  · rw [fuseScores_eq store semA keyA' k sw kw hsem hkey',
      slookup_scorePass_of_not_mem k _ c _ 1 _ hK', hsemval]
  · have hw := normWeights_nonneg sw kw hsw hkw
    have hden : (0 : ℚ) ≤ 1 / ((k : ℚ) + 1 + p2.length) := by positivity
    nlinarith [mul_nonneg hw.2 hden]

theorem fuse_accumulates_both_lists_witness :
    slookup (fuseScores storeW [0] [0] 60 (6/10) (4/10)) "A"
      = some ((normWeights (6/10) (4/10)).1
            * (1 / ((60 : ℚ) + 1 + (([] : List String)).length))
          + (normWeights (6/10) (4/10)).2
            * (1 / ((60 : ℚ) + 1 + (([] : List String)).length))) :=
  (fuse_accumulates_both_lists storeW [0] [0] [2] 60 (6/10) (4/10)
    (by norm_num) (by norm_num)
    (by decide) (by decide) (by decide)
    "A" [] [] [] []
    (by decide) (by simp) (by simp)
    (by decide) (by simp) (by simp)
    (by decide)).1

/-! ## Claim C1: the spec's worked RRF example -/

/-- C1: on the worked example — semantic `[A (0.9), B (0.8)]`, keyword
`[B (10), C (5)]`, weights 0.6/0.4 (already summing to 1, so unchanged
by normalization), `k = 60` — `fuse` returns exactly the three distinct
documents B, A, C in that order (B, rank 1 keyword plus rank 2 semantic,
first, above A, rank 1 semantic only), and the accumulated scores are
exactly the weighted reciprocal-rank sums `w * (1 / (k + r))` over the
lists each document appears in. -/
theorem rrf_worked_example :
    ((fuse storeEx [0, 1] [2, 3] 60 (6/10) (4/10)).2.map
        (fun a => contentKey (storeGet (fuse storeEx [0, 1] [2, 3] 60 (6/10) (4/10)).1 a)))
      = ["B", "A", "C"] ∧
      (fuse storeEx [0, 1] [2, 3] 60 (6/10) (4/10)).2.length = 3 ∧
      slookup (fuseScores storeEx [0, 1] [2, 3] 60 (6/10) (4/10)) "B"
        = some ((6/10) * (1 / ((60 : ℚ) + 2)) + (4/10) * (1 / ((60 : ℚ) + 1))) ∧
      slookup (fuseScores storeEx [0, 1] [2, 3] 60 (6/10) (4/10)) "A"
        = some ((6/10) * (1 / ((60 : ℚ) + 1))) ∧
      slookup (fuseScores storeEx [0, 1] [2, 3] 60 (6/10) (4/10)) "C"
        = some ((4/10) * (1 / ((60 : ℚ) + 2))) :=
  ⟨by decide, by decide, by decide, by decide, by decide⟩

end RAGSystem
